import Mathlib

/-!
Shallow embedding of the `filesys` repository (Rust) in Lean 4, together with
theorems checking the natural-language specification against the code.

Source layout embedded here:
  * `src/users.rs`  : capability sets (`Perms`, `Op`), per-node ACLs
    (`AccessMap`), accounts (`User`, `UserDb`) with login lockout;
  * `src/fs.rs`     : the arena node store (`Fs`, `Node`, `Dir`, `File`) and
    its path-addressed operations;
  * `src/log.rs`    : the append-only audit log (`Log`, `Logger`);
  * `src/lib.rs`    : the action dispatcher (`System`, `Action`) with its
    session gate, and the snapshot (`System.pack` / `SystemImage.unpack`).

Modelling conventions:
  * Rust `HashMap` becomes an association list (`List (key × value)`) with
    insert-replaces-existing semantics (`insertA`); iteration order of the
    model is list order (the Rust iteration order is unspecified, and no
    theorem below depends on a particular order beyond list membership,
    except for closed concrete computations where the model order is used).
  * `anyhow::Result` becomes `Except Err`, where `Err.err` is an
    `anyhow::bail!`-style error carrying the message and `Err.panic` models a
    Rust `panic!` / `.expect(..)` abort.  A panic aborts the process, so the
    embedding propagates `Err.panic` through every handler (including the
    `Err(_) => continue` arm of `Fs.ls`, which in Rust only sees `Err` values,
    never panics).
  * Machine integers (`u64`, `usize`) become `Nat`; none of the counters can
    realistically overflow and no claim concerns wrap-around.
  * `Instant` / wall-clock time become a `Nat` number of seconds passed in
    explicitly as `now`; `Instant::elapsed` is truncated subtraction.
  * The password hash (`argon2`, an external collaborator per the spec) is
    modelled as the identity derivation: the stored `pass` field stands for
    the opaque hash and verification is string equality.  Salting and hash
    parsing never fail in the model.
  * Rust `&mut self` methods become functions returning the new state; in
    `fs.rs` every `bail!` happens before the first mutation, so returning
    `Except.error` with the caller keeping the old state is faithful.
    `users.rs` mutates on failed verifications, so its fallible mutators
    return a `result × state` pair.
  * Error messages are kept verbatim, except that an ASCII apostrophe is
    written with the `\x27` escape.
-/

namespace Filesys

/-! ## Association lists (the model of Rust `HashMap`) -/

/-- Lookup of the first binding of a key. -/
def lookupA {α β : Type} [DecidableEq α] : List (α × β) → α → Option β
  | [], _ => none
  | (k, v) :: t, key => if k = key then some v else lookupA t key

/-- Insert with replace-on-collision, appending fresh keys (models
`HashMap::insert`; the returned prior value is not needed anywhere). -/
def insertA {α β : Type} [DecidableEq α] : List (α × β) → α → β → List (α × β)
  | [], key, v => [(key, v)]
  | (k, w) :: t, key, v => if k = key then (key, v) :: t else (k, w) :: insertA t key v

/-- Replace the value of an existing key; no-op when the key is absent
(models writing through a `get_mut` reference). -/
def updateA {α β : Type} [DecidableEq α] : List (α × β) → α → β → List (α × β)
  | [], _, _ => []
  | (k, w) :: t, key, v => if k = key then (key, v) :: t else (k, w) :: updateA t key v

/-- Remove a key, returning the removed value (models `HashMap::remove`). -/
def removeA {α β : Type} [DecidableEq α] : List (α × β) → α → Option β × List (α × β)
  | [], _ => (none, [])
  | (k, v) :: t, key =>
    if k = key then (some v, t)
    else
      let r := removeA t key
      (r.1, (k, v) :: r.2)

/-- Key membership (models `HashMap::contains_key`). -/
def containsA {α β : Type} [DecidableEq α] : List (α × β) → α → Bool
  | [], _ => false
  | (k, _) :: t, key => k = key || containsA t key

theorem lookupA_isSome_of_containsA {α β : Type} [DecidableEq α]
    {l : List (α × β)} {key : α} (h : containsA l key = true) :
    ∃ v, lookupA l key = some v := by
  induction l with
  | nil => simp [containsA] at h
  | cons hd t ih =>
    obtain ⟨k, v⟩ := hd
    simp only [containsA, Bool.or_eq_true, decide_eq_true_eq] at h
    by_cases hk : k = key
    · exact ⟨v, by simp [lookupA, hk]⟩
    · rcases h with h | h
      · exact absurd h hk
      · simpa [lookupA, hk] using ih h

theorem containsA_of_lookupA {α β : Type} [DecidableEq α]
    {l : List (α × β)} {key : α} {v : β} (h : lookupA l key = some v) :
    containsA l key = true := by
  induction l with
  | nil => simp [lookupA] at h
  | cons hd t ih =>
    obtain ⟨k, w⟩ := hd
    by_cases hk : k = key
    · simp [containsA, hk]
    · simp only [lookupA, if_neg hk] at h
      simp [containsA, hk, ih h]

theorem mem_of_lookupA {α β : Type} [DecidableEq α]
    {l : List (α × β)} {key : α} {v : β} (h : lookupA l key = some v) :
    (key, v) ∈ l := by
  induction l with
  | nil => simp [lookupA] at h
  | cons hd t ih =>
    obtain ⟨k, w⟩ := hd
    by_cases hk : k = key
    · simp only [lookupA, hk, eq_self_iff_true, ite_true, if_true, Option.some.injEq] at h
      rw [hk, h]
      exact List.mem_cons_self _ _
    · simp only [lookupA, if_neg hk] at h
      exact List.mem_cons_of_mem _ (ih h)

theorem lookupA_insertA_self {α β : Type} [DecidableEq α]
    (l : List (α × β)) (key : α) (v : β) :
    lookupA (insertA l key v) key = some v := by
  induction l with
  | nil => simp [insertA, lookupA]
  | cons hd t ih =>
    obtain ⟨k, w⟩ := hd
    by_cases hk : k = key
    · simp [insertA, hk, lookupA]
    · simp [insertA, hk, lookupA, ih]

theorem lookupA_insertA_ne {α β : Type} [DecidableEq α]
    (l : List (α × β)) {key key' : α} (v : β) (h : key' ≠ key) :
    lookupA (insertA l key v) key' = lookupA l key' := by
  have hne : ¬ key = key' := fun e => h e.symm
  induction l with
  | nil => simp [insertA, lookupA, hne]
  | cons hd t ih =>
    obtain ⟨k, w⟩ := hd
    by_cases hk : k = key
    · simp [insertA, hk, lookupA, hne]
    · simp only [insertA, if_neg hk, lookupA]
      by_cases hk' : k = key'
      · simp [hk']
      · simp [hk', ih]

theorem lookupA_updateA_self {α β : Type} [DecidableEq α]
    {l : List (α × β)} {key : α} {u : β} (v : β) (h : lookupA l key = some u) :
    lookupA (updateA l key v) key = some v := by
  induction l with
  | nil => simp [lookupA] at h
  | cons hd t ih =>
    obtain ⟨k, w⟩ := hd
    by_cases hk : k = key
    · simp [updateA, hk, lookupA]
    · simp only [lookupA, if_neg hk] at h
      simp [updateA, hk, lookupA, ih h]

theorem lookupA_updateA_ne {α β : Type} [DecidableEq α]
    (l : List (α × β)) {key key' : α} (v : β) (h : key' ≠ key) :
    lookupA (updateA l key v) key' = lookupA l key' := by
  have hne : ¬ key = key' := fun e => h e.symm
  induction l with
  | nil => simp [updateA]
  | cons hd t ih =>
    obtain ⟨k, w⟩ := hd
    by_cases hk : k = key
    · simp [updateA, hk, lookupA, hne]
    · simp only [updateA, if_neg hk, lookupA]
      by_cases hk' : k = key'
      · simp [hk']
      · simp [hk', ih]

theorem updateA_of_lookupA_none {α β : Type} [DecidableEq α]
    {l : List (α × β)} {key : α} (v : β) (h : lookupA l key = none) :
    updateA l key v = l := by
  induction l with
  | nil => rfl
  | cons hd t ih =>
    obtain ⟨k, w⟩ := hd
    by_cases hk : k = key
    · simp [lookupA, hk] at h
    · simp only [lookupA, if_neg hk] at h
      simp [updateA, hk, ih h]

theorem removeA_of_lookupA_none {α β : Type} [DecidableEq α]
    {l : List (α × β)} {key : α} (h : lookupA l key = none) :
    removeA l key = (none, l) := by
  induction l with
  | nil => rfl
  | cons hd t ih =>
    obtain ⟨k, w⟩ := hd
    by_cases hk : k = key
    · simp [lookupA, hk] at h
    · simp only [lookupA, if_neg hk] at h
      simp [removeA, hk, ih h]

theorem removeA_fst_of_lookupA {α β : Type} [DecidableEq α]
    {l : List (α × β)} {key : α} {v : β} (h : lookupA l key = some v) :
    (removeA l key).1 = some v := by
  induction l with
  | nil => simp [lookupA] at h
  | cons hd t ih =>
    obtain ⟨k, w⟩ := hd
    by_cases hk : k = key
    · simp only [lookupA, hk, eq_self_iff_true, ite_true, if_true, Option.some.injEq] at h
      simp [removeA, hk, h]
    · simp only [lookupA, if_neg hk] at h
      simp [removeA, hk, ih h]

theorem removeA_some_length {α β : Type} [DecidableEq α]
    {l : List (α × β)} {key : α} {v : β} (h : (removeA l key).1 = some v) :
    (removeA l key).2.length + 1 = l.length := by
  induction l with
  | nil => simp [removeA] at h
  | cons hd t ih =>
    obtain ⟨k, w⟩ := hd
    by_cases hk : k = key
    · simp [removeA, hk]
    · simp only [removeA, if_neg hk] at h ⊢
      simp only [List.length_cons]
      rw [← ih h]

theorem mem_of_mem_removeA {α β : Type} [DecidableEq α]
    {l : List (α × β)} {key : α} {x : α × β} (h : x ∈ (removeA l key).2) :
    x ∈ l := by
  induction l with
  | nil => simp [removeA] at h
  | cons hd t ih =>
    obtain ⟨k, w⟩ := hd
    by_cases hk : k = key
    · simp only [removeA, if_pos hk] at h
      exact List.mem_cons_of_mem _ h
    · simp only [removeA, if_neg hk, List.mem_cons] at h
      rcases h with h | h
      · exact h ▸ List.mem_cons_self _ _
      · exact List.mem_cons_of_mem _ (ih h)

theorem lookupA_removeA_self {α β : Type} [DecidableEq α]
    {l : List (α × β)} {key : α} (h : ((l.map Prod.fst).Nodup)) :
    lookupA (removeA l key).2 key = none := by
  induction l with
  | nil => rfl
  | cons hd t ih =>
    obtain ⟨k, w⟩ := hd
    simp only [List.map_cons, List.nodup_cons] at h
    by_cases hk : k = key
    · subst hk
      simp only [removeA, if_pos rfl]
      cases hl : lookupA t k with
      | none => exact hl
      | some v => exact absurd (List.mem_map_of_mem Prod.fst (mem_of_lookupA hl)) h.1
    · simp [removeA, hk, lookupA, ih h.2]

theorem lookupA_removeA_ne {α β : Type} [DecidableEq α]
    (l : List (α × β)) {key key' : α} (h : key' ≠ key) :
    lookupA (removeA l key).2 key' = lookupA l key' := by
  have hne : ¬ key = key' := fun e => h e.symm
  induction l with
  | nil => rfl
  | cons hd t ih =>
    obtain ⟨k, w⟩ := hd
    by_cases hk : k = key
    · simp [removeA, hk, lookupA, hne]
    · simp only [removeA, if_neg hk, lookupA]
      by_cases hk' : k = key'
      · simp [hk']
      · simp [hk', ih]

theorem map_fst_updateA {α β : Type} [DecidableEq α]
    (l : List (α × β)) (key : α) (v : β) :
    (updateA l key v).map Prod.fst = l.map Prod.fst := by
  induction l with
  | nil => rfl
  | cons hd t ih =>
    obtain ⟨k, w⟩ := hd
    by_cases hk : k = key
    · simp [updateA, hk]
    · simp [updateA, hk, ih]

theorem insertA_of_lookupA_none {α β : Type} [DecidableEq α]
    {l : List (α × β)} {key : α} (v : β) (h : lookupA l key = none) :
    insertA l key v = l ++ [(key, v)] := by
  induction l with
  | nil => rfl
  | cons hd t ih =>
    obtain ⟨k, w⟩ := hd
    by_cases hk : k = key
    · simp [lookupA, hk] at h
    · simp only [lookupA, if_neg hk] at h
      simp [insertA, hk, ih h]

theorem mem_updateA {α β : Type} [DecidableEq α]
    {l : List (α × β)} {key : α} {v : β} {x : α × β} (h : x ∈ updateA l key v) :
    x ∈ l ∨ x = (key, v) := by
  induction l with
  | nil => simp [updateA] at h
  | cons hd t ih =>
    obtain ⟨k, w⟩ := hd
    by_cases hk : k = key
    · simp only [updateA, if_pos hk, List.mem_cons] at h
      rcases h with h | h
      · exact Or.inr h
      · exact Or.inl (List.mem_cons_of_mem _ h)
    · simp only [updateA, if_neg hk, List.mem_cons] at h
      rcases h with h | h
      · exact Or.inl (h ▸ List.mem_cons_self _ _)
      · rcases ih h with h' | h'
        · exact Or.inl (List.mem_cons_of_mem _ h')
        · exact Or.inr h'

theorem lookupA_eq_some_of_mem_nodup {α β : Type} [DecidableEq α]
    {l : List (α × β)} {key : α} {v : β}
    (hm : (key, v) ∈ l) (h : (l.map Prod.fst).Nodup) :
    lookupA l key = some v := by
  induction l with
  | nil => simp at hm
  | cons hd t ih =>
    obtain ⟨k, w⟩ := hd
    simp only [List.map_cons, List.nodup_cons] at h
    rcases List.mem_cons.mp hm with h1 | h1
    · obtain ⟨rfl, rfl⟩ := Prod.mk.injEq .. ▸ h1
      simp [lookupA]
    · by_cases hk : k = key
      · subst hk
        exact absurd (List.mem_map_of_mem Prod.fst h1) h.1
      · simp [lookupA, hk, ih h1 h.2]

/-! ## Errors

`Err.err` models an `anyhow` error with its message; `Err.panic` models a Rust
`panic!` / `.expect(..)` abort (which unwinds past all error handling). -/

inductive Err : Type where
  | err (msg : String)
  | panic (msg : String)
deriving DecidableEq

deriving instance DecidableEq for Except

/-! ## `src/users.rs` -/

abbrev UserId := Nat

def ADMIN_ID : UserId := 0

abbrev Username := String

def MAX_LOGIN_TRIES : Nat := 3

/-- The capability request alphabet (`enum Op` in `users.rs`). -/
inductive Op : Type where
  | read
  | write
  | exec
  | control
deriving DecidableEq

/-- The 4-bit capability set (`struct Perms`). -/
structure Perms : Type where
  read : Bool
  write : Bool
  exec : Bool
  control : Bool
deriving DecidableEq

/-- The all-false default (`Perms::default()`). -/
def Perms.none : Perms := ⟨false, false, false, false⟩

/-- Conversion `From<&[Op]> for Perms`: set the bit of each listed op. -/
def opsToPerms (ops : List Op) : Perms :=
  ops.foldl
    (fun p op =>
      match op with
      | Op.read => { p with read := true }
      | Op.write => { p with write := true }
      | Op.exec => { p with exec := true }
      | Op.control => { p with control := true })
    Perms.none

/-- The bit of one capability. -/
def Perms.bit (p : Perms) : Op → Bool
  | Op.read => p.read
  | Op.write => p.write
  | Op.exec => p.exec
  | Op.control => p.control

/-- `Perms::intersects`: Rust maps each requested op to its bit and folds the
list with `&&` via `Iterator::reduce`, whose result on an empty request is
`None`, defaulted to `false` by `unwrap_or(false)`. -/
def Perms.intersects (p : Perms) (ops : List Op) : Bool :=
  match ops.map p.bit with
  | [] => false
  | b :: bs => bs.foldl (fun a c => a && c) b

/-- The `Display` rendering of `Perms` (fixed 4 characters, `r w x c`). -/
def Perms.render (p : Perms) : String :=
  String.mk
    [ if p.read then 'r' else '-',
      if p.write then 'w' else '-',
      if p.exec then 'x' else '-',
      if p.control then 'c' else '-' ]

/-- Loop body of the `FromStr` parse: accepts only `r w e c`. -/
def Perms.from_str_go : List Char → Perms → Except Err Perms
  | [], acc => .ok acc
  | c :: cs, acc =>
    if c = 'r' then Perms.from_str_go cs { acc with read := true }
    else if c = 'w' then Perms.from_str_go cs { acc with write := true }
    else if c = 'e' then Perms.from_str_go cs { acc with exec := true }
    else if c = 'c' then Perms.from_str_go cs { acc with control := true }
    else .error (.err ("unexpected character: " ++ String.mk ['\x27', c, '\x27']))

/-- The `FromStr` parse of `Perms`. -/
def Perms.from_str (s : String) : Except Err Perms :=
  Perms.from_str_go s.data Perms.none

/-- Per-node ACL (`struct AccessMap`). -/
structure AccessMap : Type where
  perms : List (UserId × Perms)
deriving DecidableEq

def AccessMap.empty : AccessMap := ⟨[]⟩

/-- `AccessMap::allows`: unconditional for the administrator, otherwise the
stored `Perms` (absent means all-false, hence `false`). -/
def AccessMap.allows (m : AccessMap) (uid : UserId) (ops : List Op) : Bool :=
  if uid = ADMIN_ID then true
  else
    match lookupA m.perms uid with
    | some p => p.intersects ops
    | none => false

/-- `AccessMap::set`: silently a no-op for the administrator. -/
def AccessMap.set (m : AccessMap) (uid : UserId) (p : Perms) : AccessMap :=
  if uid ≠ ADMIN_ID then ⟨insertA m.perms uid p⟩ else m

/-- `AccessMap::get`: stored perms or the all-false default. -/
def AccessMap.get (m : AccessMap) (uid : UserId) : Perms :=
  (lookupA m.perms uid).getD Perms.none

/-- An account (`struct User`).  `pass` stands for the opaque password hash;
the model derivation is the identity (hashing is an external collaborator). -/
structure User : Type where
  id : UserId
  name : Username
  pass : String
  last_login_tries : Nat
deriving DecidableEq

def User.is_blocked (u : User) : Bool :=
  u.last_login_tries ≥ MAX_LOGIN_TRIES

/-- `User::verify_pass` with its lockout bookkeeping.  Mutates the account
(resetting or incrementing the failure counter), so the pair carries the
updated account even on failure.  The hash-parse step of the Rust code cannot
fail in the model. -/
def User.verify_pass (u : User) (pass : String) : Except Err Unit × User :=
  if u.is_blocked then (.error (.err "account if blocked"), u)
  else if pass = u.pass then (.ok (), { u with last_login_tries := 0 })
  else
    let u' := { u with last_login_tries := u.last_login_tries + 1 }
    if u'.last_login_tries ≥ MAX_LOGIN_TRIES then (.error (.err "account is blocked"), u')
    else (.error (.err "wrong username or password"), u')

/-- `User::change_pass`; the salted derivation is modelled as identity and
never fails. -/
def User.change_pass (u : User) (pass : String) : Except Err Unit × User :=
  (.ok (), { u with pass := pass })

/-- The user directory (`struct UserDb`). -/
structure UserDb : Type where
  id_ctr : UserId
  unames : List (Username × UserId)
  users : List (UserId × User)
deriving DecidableEq

def wrong_uname_msg : String := "wrong username or password"

/-- `UserDb::add_user`. -/
def UserDb.add_user (db : UserDb) (name : String) (pass : String) :
    Except Err (UserId × UserDb) :=
  if containsA db.unames name then .error (.err "user exists")
  else
    let id := db.id_ctr
    let user : User := ⟨id, name, pass, 0⟩
    .ok (id,
      { db with
        id_ctr := db.id_ctr + 1,
        unames := insertA db.unames name id,
        users := insertA db.users id user })

/-- `UserDb::new`: a fresh directory holding only the administrator with an
empty password (the `add_user` call cannot fail on an empty directory). -/
def UserDb.new : UserDb :=
  match UserDb.add_user ⟨0, [], []⟩ "admin" "" with
  | .ok (_, db) => db
  | .error _ => ⟨0, [], []⟩

/-- `UserDb::login_with_id`. -/
def UserDb.login_with_id (db : UserDb) (uid : UserId) (pass : String) :
    Except Err Unit × UserDb :=
  match lookupA db.users uid with
  | Option.none => (.error (.err wrong_uname_msg), db)
  | some u =>
    let r := u.verify_pass pass
    (r.1, { db with users := updateA db.users uid r.2 })

/-- `UserDb::login`: unknown names fail with the same generic message as
wrong passwords. -/
def UserDb.login (db : UserDb) (name : String) (pass : String) :
    Except Err UserId × UserDb :=
  match lookupA db.unames name with
  | Option.none => (.error (.err wrong_uname_msg), db)
  | some uid =>
    let r := db.login_with_id uid pass
    (r.1.map (fun _ => uid), r.2)

/-- `UserDb::change_pass`: re-runs verification (with lockout) against the old
password before committing the new one.  The `.expect("already checked for
existence")` is a panic site. -/
def UserDb.change_pass (db : UserDb) (uid : UserId) (old_pass new_pass : String) :
    Except Err Unit × UserDb :=
  match db.login_with_id uid old_pass with
  | (.error e, db') => (.error e, db')
  | (.ok _, db') =>
    match lookupA db'.users uid with
    | Option.none => (.error (.panic "already checked for existence"), db')
    | some u =>
      let r := u.change_pass new_pass
      (r.1, { db' with users := updateA db'.users uid r.2 })

/-- `UserDb::id_of`. -/
def UserDb.id_of (db : UserDb) (username : String) : Except Err UserId :=
  match lookupA db.unames username with
  | some id => .ok id
  | Option.none => .error (.err "user not found")

/-- `UserDb::unblock`: resets the failure counter to zero.  The
`.expect("should exists")` is a panic site. -/
def UserDb.unblock (db : UserDb) (username : String) : Except Err Unit × UserDb :=
  match db.id_of username with
  | .error e => (.error e, db)
  | .ok id =>
    match lookupA db.users id with
    | Option.none => (.error (.panic "should exists"), db)
    | some u =>
      (.ok (), { db with users := updateA db.users id { u with last_login_tries := 0 } })

/-! ## `src/fs.rs`

A path is embedded as its component list (`Path::components()` output):
`"/docs/readme"` becomes `["docs", "readme"]`.  Rust's component
normalisation removes `RootDir` markers for resolution purposes (the code
skips them) and removes every non-leading `CurDir`, so `"."` can only occur
as a leading component and `".."` components stay. -/

abbrev NodeId := Nat

def ROOT_ID : NodeId := 0

abbrev Path := List String

/-- File node payload (`struct File`). -/
structure File : Type where
  content : String
deriving DecidableEq

/-- File size in bytes (`content.len()` counts UTF-8 bytes). -/
def File.size (f : File) : Nat := f.content.utf8ByteSize

/-- Directory node payload (`struct Dir`): the name-to-id binding table. -/
structure Dir : Type where
  nodes : List (String × NodeId)
deriving DecidableEq

/-- `Dir::new`: every directory starts with its two self-referential
bindings. -/
def Dir.new (id parent_id : NodeId) : Dir :=
  ⟨[(".", id), ("..", parent_id)]⟩

/-- `Dir::lookup` with its `anyhow` error message. -/
def Dir.lookup (d : Dir) (name : String) : Except Err NodeId :=
  match lookupA d.nodes name with
  | some id => .ok id
  | Option.none => .error (.err ("file " ++ name ++ " doesn\x27t exist"))

def Dir.contains (d : Dir) (name : String) : Bool := containsA d.nodes name

def Dir.add (d : Dir) (name : String) (id : NodeId) : Dir :=
  ⟨insertA d.nodes name id⟩

/-- `Dir::rm`: unbind a name, returning the removed id. -/
def Dir.rm (d : Dir) (name : String) : Option NodeId × Dir :=
  let r := removeA d.nodes name
  (r.1, ⟨r.2⟩)

/-- `Dir::len` is the raw entry count, `.` and `..` included. -/
def Dir.len (d : Dir) : Nat := d.nodes.length

/-- `Dir::is_empty`: the source compares the raw length with 2 to skip the
two self bindings. -/
def Dir.is_empty (d : Dir) : Bool := d.len == 2

inductive NodeKind : Type where
  | file (f : File)
  | dir (d : Dir)
deriving DecidableEq

inductive NodeTag : Type where
  | file
  | dir
deriving DecidableEq

structure Node : Type where
  id : NodeId
  kind : NodeKind
  perms : AccessMap
deriving DecidableEq

def Node.new_file (id : NodeId) : Node :=
  ⟨id, .file ⟨""⟩, AccessMap.empty⟩

def Node.new_dir (id parent_id : NodeId) : Node :=
  ⟨id, .dir (Dir.new id parent_id), AccessMap.empty⟩

def Node.new_with_tag (id parent_id : NodeId) : NodeTag → Node
  | .file => Node.new_file id
  | .dir => Node.new_dir id parent_id

def Node.as_file (n : Node) : Except Err File :=
  match n.kind with
  | .file f => .ok f
  | .dir _ => .error (.err "is not a regular file")

def Node.as_dir (n : Node) : Except Err Dir :=
  match n.kind with
  | .file _ => .error (.err "is not a dir")
  | .dir d => .ok d

def Node.check_if_allowed (n : Node) (uid : UserId) (ops : List Op) : Except Err Unit :=
  if n.perms.allows uid ops then .ok () else .error (.err "permission denied")

def Node.set_perm (n : Node) (uid : UserId) (p : Perms) : Node :=
  { n with perms := n.perms.set uid p }

def Node.tag (n : Node) : NodeTag :=
  match n.kind with
  | .file _ => .file
  | .dir _ => .dir

def Node.perms_for (n : Node) (uid : UserId) : Perms := n.perms.get uid

def Node.size (n : Node) : Nat :=
  match n.kind with
  | .file f => f.size
  | .dir d => d.len

/-- A visible child as reported by `Fs::ls` (`struct NodeEntry`). -/
structure NodeEntry : Type where
  tag : NodeTag
  name : String
  perms : Perms
  size : Nat
deriving DecidableEq

/-- The arena node store (`struct Fs`). -/
structure Fs : Type where
  nodes : List (NodeId × Node)
  node_counter : NodeId
deriving DecidableEq

/-- `Fs::new`: root directory whose `..` points to itself; the counter has
already handed out the root id. -/
def Fs.new : Fs :=
  ⟨[(ROOT_ID, Node.new_dir ROOT_ID ROOT_ID)], ROOT_ID + 1⟩

/-- `Fs::get_node`: the arena lookup panics (`expect("bug: node should
exist")`) on a dangling id, then read-access is checked. -/
def Fs.get_node (fs : Fs) (uid : UserId) (node_id : NodeId) : Except Err Node :=
  match lookupA fs.nodes node_id with
  | Option.none => .error (.panic "bug: node should exist")
  | some node =>
    match node.check_if_allowed uid [Op.read] with
    | .error e => .error e
    | .ok _ => .ok node

/-- `Fs::get_node_mut`: same arena lookup, write-access check. -/
def Fs.get_node_mut (fs : Fs) (uid : UserId) (node_id : NodeId) : Except Err Node :=
  match lookupA fs.nodes node_id with
  | Option.none => .error (.panic "bug: node should exist")
  | some node =>
    match node.check_if_allowed uid [Op.write] with
    | .error e => .error e
    | .ok _ => .ok node

/-- `Fs::lookup`: child by name inside the directory `parent_id`, read-checked
at both ends. -/
def Fs.lookup (fs : Fs) (uid : UserId) (parent_id : NodeId) (name : String) :
    Except Err Node :=
  match fs.get_node uid parent_id with
  | .error e => .error e
  | .ok p =>
    match p.as_dir with
    | .error e => .error e
    | .ok dir =>
      match dir.lookup name with
      | .error e => .error e
      | .ok node_id => fs.get_node uid node_id

/-- `reduce_segments`: left fold of the path components with early error
return.  `RootDir` markers are already absent from the embedded path. -/
def reduce_segments {α : Type} (path : Path) (start : α)
    (callback : α → String → Except Err α) : Except Err α :=
  match path with
  | [] => .ok start
  | name :: rest =>
    match callback start name with
    | .error e => .error e
    | .ok next => reduce_segments rest next callback

/-- `Fs::resolve_path`: resolution always starts at the root and is
read-checked at every fetch. -/
def Fs.resolve_path (fs : Fs) (uid : UserId) (path : Path) : Except Err Node :=
  match fs.get_node uid ROOT_ID with
  | .error e => .error e
  | .ok root => reduce_segments path root (fun node name => fs.lookup uid node.id name)

/-- `Fs::resolve_path_mut`: resolve, then re-fetch the final node with a
write check. -/
def Fs.resolve_path_mut (fs : Fs) (uid : UserId) (path : Path) : Except Err Node :=
  match fs.resolve_path uid path with
  | .error e => .error e
  | .ok n => fs.get_node_mut uid n.id

/-- `Path::parent()` on the component list; the `None => Path::new(".")`
fallback of the source resolves to the root exactly as the empty component
list does. -/
def parentPath (path : Path) : Path := path.dropLast

def Fs.resolve_parent_of (fs : Fs) (uid : UserId) (path : Path) : Except Err Node :=
  fs.resolve_path uid (parentPath path)

def Fs.resolve_parent_of_mut (fs : Fs) (uid : UserId) (path : Path) : Except Err Node :=
  fs.resolve_path_mut uid (parentPath path)

/-- The free `filename` helper: `Path::file_name()` is `None` for a path
whose effective last component is `..` (or for an empty path, or the bare
`.`), and the source converts that into the `anyhow` error below. -/
def filename (path : Path) : Except Err String :=
  match path.getLast? with
  | Option.none => .error (.err "path can\x27t end in ..")
  | some n =>
    if n = "." ∨ n = ".." then .error (.err "path can\x27t end in ..")
    else .ok n

/-- `Fs::create`: checks, then binds the fresh id in the parent and inserts
the node, finally committing the bumped counter. -/
def Fs.create (fs : Fs) (uid : UserId) (parent_id : NodeId) (name : String)
    (tag : NodeTag) : Except Err (NodeId × Fs) :=
  match fs.get_node_mut uid parent_id with
  | .error e => .error e
  | .ok parent =>
    match parent.as_dir with
    | .error e => .error e
    | .ok d =>
      if d.contains name then .error (.err "file exists")
      else
        let id := fs.node_counter
        let node := Node.new_with_tag id parent_id tag
        let parent' := { parent with kind := .dir (d.add name id) }
        .ok (id,
          { nodes := insertA (updateA fs.nodes parent_id parent') id node,
            node_counter := fs.node_counter + 1 })

/-- `Fs::read`. -/
def Fs.read (fs : Fs) (uid : UserId) (path : Path) : Except Err String :=
  match fs.resolve_path uid path with
  | .error e => .error e
  | .ok n =>
    match n.as_file with
    | .error e => .error e
    | .ok f => .ok f.content

/-- `Fs::write`: overwrite semantics, replacing the whole content. -/
def Fs.write (fs : Fs) (uid : UserId) (path : Path) (data : String) : Except Err Fs :=
  match fs.resolve_path_mut uid path with
  | .error e => .error e
  | .ok n =>
    match n.as_file with
    | .error e => .error e
    | .ok _ =>
      .ok { fs with nodes := updateA fs.nodes n.id { n with kind := .file ⟨data⟩ } }

/-- Worklist form of `Fs::rm_recursive`: pop an id, drop it from the arena,
and push the non-self children of a directory.  This is the depth-first walk
of the source (children are prepended, so they are processed before the rest
of the worklist); the removals commute, so the resulting arena is the one the
recursive Rust code produces. -/
def rmRecWork (fs : Fs) (ids : List NodeId) : Fs :=
  match ids with
  | [] => fs
  | id :: rest =>
    match h : (removeA fs.nodes id).1 with
    | Option.none => rmRecWork fs rest
    | some node =>
      let fs' : Fs := { fs with nodes := (removeA fs.nodes id).2 }
      match node.kind with
      | .file _ => rmRecWork fs' rest
      | .dir d =>
        rmRecWork fs'
          (((d.nodes.filter (fun e => e.1 != "." && e.1 != "..")).map Prod.snd) ++ rest)
termination_by (fs.nodes.length, ids.length)
decreasing_by
  · exact Prod.Lex.right _ (Nat.lt_succ_self _)
  · exact Prod.Lex.left _ _ (by rw [← removeA_some_length h]; exact Nat.lt_succ_self _)
  · exact Prod.Lex.left _ _ (by rw [← removeA_some_length h]; exact Nat.lt_succ_self _)

/-- `Fs::rm_recursive`. -/
def Fs.rm_recursive (fs : Fs) (id : NodeId) : Fs := rmRecWork fs [id]

/-- `Fs::rm`: every failure (`bail!` or permission error) happens before the
first mutation; `parent.rm(name).expect("should exists")` is a panic site. -/
def Fs.rm (fs : Fs) (uid : UserId) (path : Path) : Except Err Fs :=
  match filename path with
  | .error e => .error e
  | .ok name =>
    match fs.resolve_parent_of uid path with
    | .error e => .error e
    | .ok parent =>
      match parent.as_dir with
      | .error e => .error e
      | .ok pd =>
        match pd.lookup name with
        | .error e => .error e
        | .ok id =>
          match fs.get_node uid id with
          | .error e => .error e
          | .ok node =>
            if (match node.kind with
                | .dir d => !d.is_empty
                | .file _ => false) then
              .error (.err "can\x27t remove non-empty directory")
            else
              match fs.get_node_mut uid parent.id with
              | .error e => .error e
              | .ok parent2 =>
                match parent2.as_dir with
                | .error e => .error e
                | .ok pd2 =>
                  match (pd2.rm name).1 with
                  | Option.none => .error (.panic "should exists")
                  | some old =>
                    let fs1 : Fs :=
                      { fs with
                        nodes := updateA fs.nodes parent.id
                          { parent2 with kind := .dir (pd2.rm name).2 } }
                    .ok (fs1.rm_recursive old)

/-- `Fs::new_file`. -/
def Fs.new_file (fs : Fs) (uid : UserId) (path : Path) : Except Err Fs :=
  match fs.resolve_parent_of_mut uid path with
  | .error e => .error e
  | .ok parent =>
    match filename path with
    | .error e => .error e
    | .ok name =>
      match fs.create uid parent.id name .file with
      | .error e => .error e
      | .ok r => .ok r.2

/-- `Fs::new_dir`. -/
def Fs.new_dir (fs : Fs) (uid : UserId) (path : Path) : Except Err Fs :=
  match fs.resolve_parent_of_mut uid path with
  | .error e => .error e
  | .ok parent =>
    match filename path with
    | .error e => .error e
    | .ok name =>
      match fs.create uid parent.id name .dir with
      | .error e => .error e
      | .ok r => .ok r.2

/-- `Fs::exec`: a pure authorization check on the leaf. -/
def Fs.exec (fs : Fs) (uid : UserId) (path : Path) : Except Err Unit :=
  match fs.resolve_path uid path with
  | .error e => .error e
  | .ok node => node.check_if_allowed uid [Op.exec]

/-- `Fs::set_perms` as written in `fs.rs`: it takes no target user and, after
the `write` and `control` checks, stores the permissions under the CALLER
uid (`node.set_perm(uid, perms)`).  Its only call site,
`System::exec`, passes a resolved target uid as an extra argument that this
signature does not declare (see `System.exec` below). -/
def Fs.set_perms (fs : Fs) (uid : UserId) (path : Path) (perms : Perms) :
    Except Err Fs :=
  match fs.resolve_path_mut uid path with
  | .error e => .error e
  | .ok node =>
    match node.check_if_allowed uid [Op.control] with
    | .error e => .error e
    | .ok _ =>
      .ok { fs with nodes := updateA fs.nodes node.id (node.set_perm uid perms) }

/-- The entry loop of `Fs::ls`: unreadable children are silently skipped
(`Err(_) => continue`), but a dangling id would panic inside `get_node`, and
a panic aborts rather than being caught, so `Err.panic` propagates. -/
def lsEntries (fs : Fs) (uid : UserId) : List (String × NodeId) →
    Except Err (List NodeEntry)
  | [] => .ok []
  | (name, id) :: rest =>
    match fs.get_node uid id with
    | .ok node =>
      (match lsEntries fs uid rest with
       | .error e => .error e
       | .ok es =>
         .ok (⟨node.tag, name, node.perms_for uid, node.size⟩ :: es))
    | .error (.panic m) => .error (.panic m)
    | .error (.err _) => lsEntries fs uid rest

/-- `Fs::ls`. -/
def Fs.ls (fs : Fs) (uid : UserId) (path : Path) : Except Err (List NodeEntry) :=
  match fs.resolve_path uid path with
  | .error e => .error e
  | .ok n =>
    match n.as_dir with
    | .error e => .error e
    | .ok dir => lsEntries fs uid dir.nodes

/-! ## `src/log.rs`

The Rust logger is a global `static LOGGER`; the spec's design notes direct
the model to treat it as a sink owned by the system instance, so `Logger` is
a field of `System` here and `pack`/`unpack` move it exactly as
`take_logger`/`set_logger` do.  Timestamps (`OffsetDateTime::now_utc()`) are
the `now` parameter threaded into every logging call. -/

inductive LogLevel : Type where
  | debug
  | info
  | error
deriving DecidableEq

/-- One audit entry (`struct Log`). -/
structure Log : Type where
  level : LogLevel
  uid : Option UserId
  msg : String
  time : Nat
deriving DecidableEq

def Log.new_with_uid (level : LogLevel) (uid : UserId) (msg : String) (time : Nat) : Log :=
  ⟨level, some uid, msg, time⟩

def Log.new (level : LogLevel) (msg : String) (time : Nat) : Log :=
  ⟨level, Option.none, msg, time⟩

/-- The append-only audit log (`struct Logger`). -/
structure Logger : Type where
  logs : List Log
deriving DecidableEq

def Logger.log (lg : Logger) (l : Log) : Logger := ⟨lg.logs ++ [l]⟩

def Logger.empty : Logger := ⟨[]⟩

/-! ## `src/lib.rs` -/

/-- The session window (`INACTIVITY_TIMEOUT`, 60 seconds). -/
def INACTIVITY_TIMEOUT : Nat := 60

/-- The action alphabet (`enum Action`). -/
inductive Action : Type where
  | read (path : Path)
  | write (path : Path) (data : String)
  | rm (path : Path)
  | new_file (path : Path)
  | new_dir (path : Path)
  | exec (path : Path)
  | set_perms (path : Path) (user : Username) (perms : Perms)
  | ls (path : Path)
  | add_user (name : Username)
  | change_password (old new : String)
  | unblock (user : Username)
  | logs
deriving DecidableEq

/-- Debug-style rendering of a path for log messages; the original `PathBuf`
text is not recoverable from the component list, so the components are
rejoined with `/`. -/
def pathRepr (p : Path) : String :=
  "\"" ++ String.intercalate "/" p ++ "\""

/-- The `Display` impl of `Action` (used in the audit message). -/
def Action.display : Action → String
  | .read p => "read(" ++ pathRepr p ++ ")"
  | .write p _ => "write(" ++ pathRepr p ++ ")"
  | .rm p => "rm(" ++ pathRepr p ++ ")"
  | .new_file p => "new-file(" ++ pathRepr p ++ ")"
  | .new_dir p => "new-dir(" ++ pathRepr p ++ ")"
  | .exec p => "exec(" ++ pathRepr p ++ ")"
  | .set_perms p user perms =>
    "set-perms(" ++ pathRepr p ++ ", \"" ++ user ++ "\", " ++ perms.render ++ ")"
  | .ls p => "ls(" ++ pathRepr p ++ ")"
  | .add_user user => "add-user(\"" ++ user ++ "\")"
  | .change_password _ _ => "change-pass"
  | .unblock user => "unblock(\"" ++ user ++ "\")"
  | .logs => "logs"

/-- The result alphabet (`enum ActionRes`). -/
inductive ActionRes : Type where
  | ok
  | read (data : String)
  | ls (entries : List NodeEntry)
  | logs (logs : List Log)
deriving DecidableEq

/-- The composed state (`struct System`); `logger` is the injected global log
sink (see the `log.rs` section note). -/
structure System : Type where
  fs : Fs
  users : UserDb
  last_access : List (UserId × Nat)
  logger : Logger
deriving DecidableEq

/-- `System::new`. -/
def System.new : System :=
  ⟨Fs.new, UserDb.new, [], Logger.empty⟩

def auth_required_msg : String := "inactivity timeout: authentication required"

/-- `System::login`: logs the attempt, then verifies; only a successful login
stamps `last_access` with the current instant. -/
def System.login (s : System) (now : Nat) (name pass : String) :
    Except Err UserId × System :=
  let s1 : System :=
    { s with logger := s.logger.log (Log.new .info ("new login with \"" ++ name ++ "\"") now) }
  match s1.users.login name pass with
  | (.ok uid, users') =>
    (.ok uid, { s1 with users := users', last_access := insertA s1.last_access uid now })
  | (.error e, users') => (.error e, { s1 with users := users' })

/-- `System::add_user`: dispatcher-level admin check. -/
def System.add_user (s : System) (uid : UserId) (name : String) :
    Except Err UserId × System :=
  if uid = ADMIN_ID then
    match s.users.add_user name "" with
    | .ok (id, users') => (.ok id, { s with users := users' })
    | .error e => (.error e, s)
  else (.error (.err "only admin can manage users"), s)

/-- `System::unblock`: admin-only. -/
def System.unblock_user (s : System) (uid : UserId) (username : String) :
    Except Err Unit × System :=
  if uid ≠ ADMIN_ID then (.error (.err "only admin can unblock the user"), s)
  else
    let r := s.users.unblock username
    (r.1, { s with users := r.2 })

/-- `System::logs`: admin-only snapshot of the audit log. -/
def System.logs (s : System) (uid : UserId) : Except Err (List Log) :=
  if uid = ADMIN_ID then .ok s.logger.logs
  else .error (.err "only admin can view the logs")

/-- Lift a state-returning `Fs` operation into the dispatcher. -/
def liftFs (s : System) : Except Err Fs → Except Err ActionRes × System
  | .ok fs' => (.ok .ok, { s with fs := fs' })
  | .error e => (.error e, s)

/-- The action-routing `match` of `System::exec` (after the session gate).

The `SetPerms` arm is embedded as resolving the target username (failing
`user not found` when absent) and then invoking `Fs.set_perms` as that
function is declared in `fs.rs`; the source text passes the resolved target
uid as an extra argument that `Fs::set_perms` does not accept, and the
resolved uid is otherwise unused.  The `?` on `users.id_of` in the source is
a return from `exec` itself, not a value of the routing match: `System.exec`
below intercepts that failure (`earlyReturn`) before this dispatcher runs,
so the `.error` value of the `SetPerms` arm here is unreachable from `exec`
and is kept only to make the dispatcher total. -/
def System.dispatch (s : System) (uid : UserId) : Action →
    Except Err ActionRes × System
  | .read path => ((s.fs.read uid path).map ActionRes.read, s)
  | .write path data => liftFs s (s.fs.write uid path data)
  | .rm path => liftFs s (s.fs.rm uid path)
  | .new_file path => liftFs s (s.fs.new_file uid path)
  | .new_dir path => liftFs s (s.fs.new_dir uid path)
  | .exec path =>
    (match s.fs.exec uid path with
     | .ok _ => (.ok .ok, s)
     | .error e => (.error e, s))
  | .set_perms path username perms =>
    (match s.users.id_of username with
     | .error e => (.error e, s)
     | .ok _for_user => liftFs s (s.fs.set_perms uid path perms))
  | .ls path => ((s.fs.ls uid path).map ActionRes.ls, s)
  | .add_user name =>
    (let r := s.add_user uid name
     (r.1.map (fun _ => ActionRes.ok), r.2))
  | .change_password old new =>
    (let r := s.users.change_pass uid old new
     (r.1.map (fun _ => ActionRes.ok), { s with users := r.2 }))
  | .unblock username =>
    (let r := s.unblock_user uid username
     (r.1.map (fun _ => ActionRes.ok), r.2))
  | .logs => ((s.logs uid).map ActionRes.logs, s)

/-- Debug rendering of `res.as_ref().map(|_| ())`: the success payload is
discarded but an `Err` keeps its message (the `Debug` output of an
`anyhow::Error` is its message text). -/
def resRepr : Except Err ActionRes → String
  | .ok _ => "Ok(())"
  | .error (.err m) => "Err(" ++ m ++ ")"
  | .error (.panic m) => "Err(" ++ m ++ ")"

/-- The `?` early returns inside the action match of `System::exec`.  The
only one is `self.users.id_of(username)?` in the `SetPerms` arm: when the
named user does not exist, the `?` propagates the `user not found` error out
of `exec` itself, BEFORE the `info!` audit statement, with no state mutated
up to that point.  Every other arm builds its `Result` as a value. -/
def earlyReturn (s : System) : Action → Option Err
  | .set_perms _ username _ =>
    (match s.users.id_of username with
     | .error e => some e
     | .ok _ => Option.none)
  | _ => Option.none

/-- `System::exec`: the session gate runs first and returns early (without
logging) when the caller has no recorded login or the elapsed time since it
exceeds the window; next, the `?` on `users.id_of` in the `SetPerms` arm
returns early — also without logging — when the target username is unknown;
otherwise the action is dispatched and exactly one audit entry is appended.
A panic would abort before the logging statement. -/
def System.exec (s : System) (now : Nat) (uid : UserId) (cmd : Action) :
    Except Err ActionRes × System :=
  match lookupA s.last_access uid with
  | Option.none => (.error (.err auth_required_msg), s)
  | some last =>
    if now - last > INACTIVITY_TIMEOUT then (.error (.err auth_required_msg), s)
    else
      match earlyReturn s cmd with
      | some e => (.error e, s)
      | Option.none =>
        let r := s.dispatch uid cmd
        match r.1 with
        | .error (.panic m) => (.error (.panic m), r.2)
        | res =>
          (res,
            { r.2 with
              logger := r.2.logger.log
                (Log.new_with_uid .info uid
                  ("action " ++ cmd.display ++ " => " ++ resRepr res) now) })

/-- The durable snapshot (`struct SystemImage`). -/
structure SystemImage : Type where
  fs : Fs
  users : UserDb
  logger : Logger
deriving DecidableEq

/-- `System::pack`: bundles graph, users and the extracted audit log; the
session table is dropped. -/
def System.pack (s : System) : SystemImage :=
  ⟨s.fs, s.users, s.logger⟩

/-- `SystemImage::unpack`: reinstalls the log and state; the session table
always starts empty. -/
def SystemImage.unpack (i : SystemImage) : System :=
  ⟨i.fs, i.users, [], i.logger⟩

/-! ## Specification-level definitions and concrete scenario states -/

/-- The dangling-reference freedom invariant exactly as the spec states it:
every `NodeId` reachable from a directory's entries other than `.`/`..`
denotes a live node in the arena. -/
def liveEntries (fs : Fs) : Prop :=
  ∀ i n d name cid,
    lookupA fs.nodes i = some n → n.kind = .dir d → (name, cid) ∈ d.nodes →
    name ≠ "." → name ≠ ".." → ∃ m, lookupA fs.nodes cid = some m

/-- One node-store operation of the public `Fs` interface, for quantifying
over arbitrary operation sequences. -/
inductive FsCmd : Type where
  | fread (uid : UserId) (path : Path)
  | fwrite (uid : UserId) (path : Path) (data : String)
  | frm (uid : UserId) (path : Path)
  | fnew_file (uid : UserId) (path : Path)
  | fnew_dir (uid : UserId) (path : Path)
  | fexec (uid : UserId) (path : Path)
  | fset_perms (uid : UserId) (path : Path) (perms : Perms)
  | fls (uid : UserId) (path : Path)

/-- Run one operation, returning the resulting store (readers return the
store unchanged). -/
def FsCmd.run (c : FsCmd) (fs : Fs) : Except Err Fs :=
  match c with
  | .fread uid p => (fs.read uid p).map (fun _ => fs)
  | .fwrite uid p d => fs.write uid p d
  | .frm uid p => fs.rm uid p
  | .fnew_file uid p => fs.new_file uid p
  | .fnew_dir uid p => fs.new_dir uid p
  | .fexec uid p => (fs.exec uid p).map (fun _ => fs)
  | .fset_perms uid p perms => fs.set_perms uid p perms
  | .fls uid p => (fs.ls uid p).map (fun _ => fs)

/-- The state transition of one operation: on failure the caller keeps the
old store. -/
def FsCmd.step (c : FsCmd) (fs : Fs) : Fs :=
  match c.run fs with
  | .ok fs' => fs'
  | .error _ => fs

/-- The store reached from a fresh `Fs::new` by a sequence of operations. -/
def runAll (cs : List FsCmd) : Fs :=
  cs.foldl (fun fs c => c.step fs) Fs.new

/-- The store produced by the admin creating `/docs`, then `/docs/readme`,
then writing `"hello"` into it (the spec's end-to-end scenario). -/
def c1fs : Fs :=
  ⟨[(0, ⟨0, .dir ⟨[(".", 0), ("..", 0), ("docs", 1)]⟩, AccessMap.empty⟩),
    (1, ⟨1, .dir ⟨[(".", 1), ("..", 0), ("readme", 2)]⟩, AccessMap.empty⟩),
    (2, ⟨2, .file ⟨"hello"⟩, AccessMap.empty⟩)], 3⟩

/-- A system holding `c1fs`, the admin plus a freshly added user `A`
(uid 1, no permissions anywhere), both logged in at instant 0. -/
def c1sys : System :=
  ⟨c1fs,
   ⟨2, [("admin", 0), ("A", 1)], [(0, ⟨0, "admin", "", 0⟩), (1, ⟨1, "A", "", 0⟩)]⟩,
   [(0, 0), (1, 0)],
   Logger.empty⟩

/-- The store produced by the admin creating the empty directory `/d` in a
fresh store. -/
def c2fs : Fs :=
  ⟨[(0, ⟨0, .dir ⟨[(".", 0), ("..", 0), ("d", 1)]⟩, AccessMap.empty⟩),
    (1, ⟨1, .dir ⟨[(".", 1), ("..", 0)]⟩, AccessMap.empty⟩)], 2⟩

/-- A fresh system whose admin is logged in at instant 0. -/
def c3sys : System :=
  ⟨Fs.new, UserDb.new, [(0, 0)], Logger.empty⟩

/-- A user directory holding the admin and a user `bob` (uid 1) whose
password is `pw` and whose failure counter is 0. -/
def dbB : UserDb :=
  ⟨2, [("admin", 0), ("bob", 1)], [(0, ⟨0, "admin", "", 0⟩), (1, ⟨1, "bob", "pw", 0⟩)]⟩

/-! ## Helper lemmas about the embedded operations -/

theorem get_node_ok_iff (fs : Fs) (uid : UserId) (id : NodeId) (n : Node) :
    fs.get_node uid id = .ok n ↔
      lookupA fs.nodes id = some n ∧ n.perms.allows uid [Op.read] = true := by
  unfold Fs.get_node
  cases h : lookupA fs.nodes id with
  | none => simp [h]
  | some m =>
    simp only [Node.check_if_allowed]
    cases ha : m.perms.allows uid [Op.read] with
    | true =>
      simp only [ha, Option.some.injEq]
      constructor
      · intro h2
        cases h2
        exact ⟨rfl, ha⟩
      · rintro ⟨h2, _⟩
        cases h2
        rfl
    | false =>
      simp only [ha, Option.some.injEq]
      constructor
      · intro h2
        cases h2
      · rintro ⟨h2, hc⟩
        cases h2
        rw [ha] at hc
        cases hc

theorem get_node_mut_ok_iff (fs : Fs) (uid : UserId) (id : NodeId) (n : Node) :
    fs.get_node_mut uid id = .ok n ↔
      lookupA fs.nodes id = some n ∧ n.perms.allows uid [Op.write] = true := by
  unfold Fs.get_node_mut
  cases h : lookupA fs.nodes id with
  | none => simp [h]
  | some m =>
    simp only [Node.check_if_allowed]
    cases ha : m.perms.allows uid [Op.write] with
    | true =>
      simp only [ha, Option.some.injEq]
      constructor
      · intro h2
        cases h2
        exact ⟨rfl, ha⟩
      · rintro ⟨h2, _⟩
        cases h2
        rfl
    | false =>
      simp only [ha, Option.some.injEq]
      constructor
      · intro h2
        cases h2
      · rintro ⟨h2, hc⟩
        cases h2
        rw [ha] at hc
        cases hc

theorem get_node_not_panic (fs : Fs) (uid : UserId) (id : NodeId) {m : Node}
    (h : lookupA fs.nodes id = some m) (pm : String) :
    fs.get_node uid id ≠ .error (.panic pm) := by
  unfold Fs.get_node
  rw [h]
  unfold Node.check_if_allowed
  by_cases ha : m.perms.allows uid [Op.read] = true <;> simp [ha]

theorem get_node_mut_not_panic (fs : Fs) (uid : UserId) (id : NodeId) {m : Node}
    (h : lookupA fs.nodes id = some m) (pm : String) :
    fs.get_node_mut uid id ≠ .error (.panic pm) := by
  unfold Fs.get_node_mut
  rw [h]
  unfold Node.check_if_allowed
  by_cases ha : m.perms.allows uid [Op.write] = true <;> simp [ha]

/-- The dispatcher routing never touches the audit log itself (only
`System::exec`'s trailing `info!` does). -/
theorem dispatch_logger (s : System) (uid : UserId) (cmd : Action) :
    (s.dispatch uid cmd).2.logger = s.logger := by
  cases cmd with
  | read p => rfl
  | write p data =>
    simp only [System.dispatch]
    cases s.fs.write uid p data <;> rfl
  | rm p =>
    simp only [System.dispatch]
    cases s.fs.rm uid p <;> rfl
  | new_file p =>
    simp only [System.dispatch]
    cases s.fs.new_file uid p <;> rfl
  | new_dir p =>
    simp only [System.dispatch]
    cases s.fs.new_dir uid p <;> rfl
  | exec p =>
    simp only [System.dispatch]
    cases s.fs.exec uid p <;> rfl
  | set_perms p user perms =>
    simp only [System.dispatch]
    cases s.users.id_of user with
    | error e => rfl
    | ok fu =>
      simp only []
      cases s.fs.set_perms uid p perms <;> rfl
  | ls p => rfl
  | add_user name =>
    simp only [System.dispatch, System.add_user]
    by_cases h : uid = ADMIN_ID
    · simp only [h, if_true, ite_true]
      cases s.users.add_user name "" <;> rfl
    · simp [h]
  | change_password old new => rfl
  | unblock user =>
    simp only [System.dispatch, System.unblock_user]
    by_cases h : uid = ADMIN_ID <;> simp [h]
  | logs => rfl

/-- The dispatcher routing never touches the session table either. -/
theorem dispatch_last_access (s : System) (uid : UserId) (cmd : Action) :
    (s.dispatch uid cmd).2.last_access = s.last_access := by
  cases cmd with
  | read p => rfl
  | write p data =>
    simp only [System.dispatch]
    cases s.fs.write uid p data <;> rfl
  | rm p =>
    simp only [System.dispatch]
    cases s.fs.rm uid p <;> rfl
  | new_file p =>
    simp only [System.dispatch]
    cases s.fs.new_file uid p <;> rfl
  | new_dir p =>
    simp only [System.dispatch]
    cases s.fs.new_dir uid p <;> rfl
  | exec p =>
    simp only [System.dispatch]
    cases s.fs.exec uid p <;> rfl
  | set_perms p user perms =>
    simp only [System.dispatch]
    cases s.users.id_of user with
    | error e => rfl
    | ok fu =>
      simp only []
      cases s.fs.set_perms uid p perms <;> rfl
  | ls p => rfl
  | add_user name =>
    simp only [System.dispatch, System.add_user]
    by_cases h : uid = ADMIN_ID
    · simp only [h, if_true, ite_true]
      cases s.users.add_user name "" <;> rfl
    · simp [h]
  | change_password old new => rfl
  | unblock user =>
    simp only [System.dispatch, System.unblock_user]
    by_cases h : uid = ADMIN_ID <;> simp [h]
  | logs => rfl

/-- `UserDb::login_with_id` never changes the name index. -/
theorem login_with_id_unames (db : UserDb) (uid : UserId) (pass : String) :
    (db.login_with_id uid pass).2.unames = db.unames := by
  unfold UserDb.login_with_id
  cases lookupA db.users uid <;> rfl

/-- `UserDb::login` never changes the name index. -/
theorem login_unames (db : UserDb) (name pass : String) :
    (db.login name pass).2.unames = db.unames := by
  unfold UserDb.login
  cases lookupA db.unames name with
  | none => rfl
  | some uid => exact login_with_id_unames db uid pass

/-- A failed verification that stays below the threshold: generic error,
counter incremented. -/
theorem login_fail_nonfinal (db : UserDb) (name : String) (uid : UserId) (u : User)
    (hn : lookupA db.unames name = some uid) (hu : lookupA db.users uid = some u)
    (hb : u.last_login_tries + 1 < MAX_LOGIN_TRIES) (w : String) (hw : w ≠ u.pass) :
    db.login name w =
      (.error (.err wrong_uname_msg),
       { db with users := updateA db.users uid { u with last_login_tries := u.last_login_tries + 1 } }) := by
  have hib : u.is_blocked = false := by
    simp only [User.is_blocked, decide_eq_false_iff_not]
    omega
  unfold UserDb.login UserDb.login_with_id User.verify_pass
  simp only [hn, hu, hib, Bool.false_eq_true, if_false, ite_false, if_neg hw]
  rw [if_neg (by omega : ¬ u.last_login_tries + 1 ≥ MAX_LOGIN_TRIES)]
  rfl

/-- The failed verification that reaches the threshold: the propagated
`inc_login_tries` error, counter incremented to the threshold. -/
theorem login_fail_final (db : UserDb) (name : String) (uid : UserId) (u : User)
    (hn : lookupA db.unames name = some uid) (hu : lookupA db.users uid = some u)
    (hb0 : u.last_login_tries < MAX_LOGIN_TRIES)
    (hb : u.last_login_tries + 1 ≥ MAX_LOGIN_TRIES) (w : String) (hw : w ≠ u.pass) :
    db.login name w =
      (.error (.err "account is blocked"),
       { db with users := updateA db.users uid { u with last_login_tries := u.last_login_tries + 1 } }) := by
  have hib : u.is_blocked = false := by
    simp only [User.is_blocked, decide_eq_false_iff_not]
    omega
  unfold UserDb.login UserDb.login_with_id User.verify_pass
  simp only [hn, hu, hib, Bool.false_eq_true, if_false, ite_false, if_neg hw]
  rw [if_pos hb]
  rfl

/-- Once blocked, every attempt fails immediately with the blocked error,
whatever the password. -/
theorem login_blocked (db : UserDb) (name : String) (uid : UserId) (u : User)
    (hn : lookupA db.unames name = some uid) (hu : lookupA db.users uid = some u)
    (hb : u.last_login_tries ≥ MAX_LOGIN_TRIES) (w : String) :
    (db.login name w).1 = .error (.err "account if blocked") := by
  have hib : u.is_blocked = true := by
    simp only [User.is_blocked, decide_eq_true_eq]
    omega
  unfold UserDb.login UserDb.login_with_id User.verify_pass
  simp only [hn, hu, hib, if_true, ite_true]
  rfl

/-- A successful verification: the caller's id, counter reset to zero. -/
theorem login_ok (db : UserDb) (name : String) (uid : UserId) (u : User)
    (hn : lookupA db.unames name = some uid) (hu : lookupA db.users uid = some u)
    (hb : u.last_login_tries < MAX_LOGIN_TRIES) :
    db.login name u.pass =
      (.ok uid, { db with users := updateA db.users uid { u with last_login_tries := 0 } }) := by
  have hib : u.is_blocked = false := by
    simp only [User.is_blocked, decide_eq_false_iff_not]
    omega
  unfold UserDb.login UserDb.login_with_id User.verify_pass
  simp only [hn, hu, hib, Bool.false_eq_true, if_false, ite_false, if_pos rfl]
  rfl

/-! ## The claims -/

/-- C4 (code contradicts the round-trip): rendering any `Perms` value and
parsing the result always fails, because the parse accepts neither the `-`
placeholder nor the `x` that the rendering uses for `exec` (the parse expects
`e`).  In particular `{read}` renders as `"r---"`, whose parse stops at the
first `-`. -/
theorem perms_render_never_parses :
    (∀ p : Perms, ∃ e, Perms.from_str (Perms.render p) = .error e)
    ∧ Perms.render ⟨true, false, false, false⟩ = "r---"
    ∧ Perms.from_str "r---" = .error (.err "unexpected character: \x27-\x27") := by
  refine ⟨?_, rfl, by decide⟩
  intro p
  obtain ⟨pr, pw, pe, pc⟩ := p
  cases pr <;> cases pw <;> cases pe <;> cases pc <;> exact ⟨_, rfl⟩

/-- C10: a permission check with an empty requested-capability list is denied
for every non-administrator uid, whatever the stored map (the `reduce` over
an empty request yields `None`, defaulted to `false`), while the
administrator short-circuit grants it. -/
theorem allows_empty_request (m : AccessMap) (uid : UserId) :
    (uid ≠ ADMIN_ID → m.allows uid [] = false) ∧ m.allows ADMIN_ID [] = true := by
  constructor
  · intro h
    unfold AccessMap.allows
    rw [if_neg h]
    cases lookupA m.perms uid <;> rfl
  · rfl

/-- Witness for C10 at a concrete input: uid 1 holds all four capabilities in
the map and is still denied the empty request; the administrator is
granted. -/
theorem allows_empty_request_witness :
    (1 : UserId) ≠ ADMIN_ID ∧
      (AccessMap.mk [(1, ⟨true, true, true, true⟩)]).allows 1 [] = false ∧
      (AccessMap.mk [(1, ⟨true, true, true, true⟩)]).allows ADMIN_ID [] = true :=
  ⟨by decide,
   (allows_empty_request ⟨[(1, ⟨true, true, true, true⟩)]⟩ 1).1 (by decide),
   (allows_empty_request ⟨[(1, ⟨true, true, true, true⟩)]⟩ 1).2⟩

/-- C8: `pack` followed by `unpack` reproduces the node graph, the user
directory and the accumulated audit entries unchanged, with an empty session
table, so every action of every user is rejected with the
authentication-required error until a fresh login. -/
theorem pack_unpack_roundtrip (s : System) :
    s.pack.unpack.fs = s.fs ∧ s.pack.unpack.users = s.users ∧
    s.pack.unpack.logger = s.logger ∧ s.pack.unpack.last_access = [] ∧
    ∀ (now : Nat) (uid : UserId) (cmd : Action),
      (s.pack.unpack.exec now uid cmd).1 = .error (.err auth_required_msg) :=
  ⟨rfl, rfl, rfl, rfl, fun _ _ _ => rfl⟩

/-- C1 (code_bug exhibit): in the end-to-end scenario the admin's
`SetPerms(/docs/readme, "A", {read})` succeeds but stores nothing — the
`fs.rs` implementation writes the CALLER's `AccessMap` entry (a no-op for the
admin) and never receives the target uid — so user `A`'s subsequent read
still fails with `permission denied` instead of returning `"hello"`. -/
theorem set_perms_ignores_target :
    (c1sys.exec 0 0 (Action.set_perms ["docs", "readme"] "A" ⟨true, false, false, false⟩)).1
        = .ok ActionRes.ok
    ∧ (c1sys.exec 0 0 (Action.set_perms ["docs", "readme"] "A" ⟨true, false, false, false⟩)).2.fs
        = c1sys.fs
    ∧ ((c1sys.exec 0 0 (Action.set_perms ["docs", "readme"] "A" ⟨true, false, false, false⟩)).2.exec
          0 1 (Action.read ["docs", "readme"])).1 = .error (.err "permission denied")
    ∧ c1sys.fs.read 0 ["docs", "readme"] = .ok "hello" := by
  decide

/-- C2 (counterexample): listing the root of a store holding one empty
directory `/d` returns entries named `.` and `..`, and reports size 2 for the
empty directory child `d` (its `.`/`..` bindings are counted). -/
theorem ls_returns_self_bindings :
    Fs.new.new_dir 0 ["d"] = .ok c2fs
    ∧ c2fs.ls 0 [] = .ok
        [⟨.dir, ".", Perms.none, 3⟩, ⟨.dir, "..", Perms.none, 3⟩,
         ⟨.dir, "d", Perms.none, 2⟩] := by
  decide

/-- C3 (counterexample): a failed `Read` dispatched by the logged-in admin
appends an audit entry whose message embeds the specific error text verbatim
(the logged value is the Debug rendering of the result, which keeps the error
message). -/
theorem audit_entry_carries_error_text :
    (c3sys.exec 0 0 (Action.read ["nope"])).1 = .error (.err "file nope doesn\x27t exist")
    ∧ (c3sys.exec 0 0 (Action.read ["nope"])).2.logger.logs =
        [⟨.info, some 0, "action read(\"nope\") => Err(file nope doesn\x27t exist)", 0⟩] := by
  decide

/-- C5: three consecutive wrong-password logins block the account (the third
already fails with the blocked error), a fourth attempt fails with the
blocked error even with the correct password — as does every password — and
after an administrator unblock the correct password logs in; a successful
verification of a not-yet-blocked account resets the failure counter. -/
theorem login_lockout (db : UserDb) (name : String) (uid : UserId) (u : User)
    (hn : lookupA db.unames name = some uid)
    (hu : lookupA db.users uid = some u)
    (h0 : u.last_login_tries = 0)
    (w₁ w₂ w₃ : String) (hw1 : w₁ ≠ u.pass) (hw2 : w₂ ≠ u.pass) (hw3 : w₃ ≠ u.pass)
    (db₁ db₂ db₃ : UserDb)
    (hdb1 : db₁ = (db.login name w₁).2)
    (hdb2 : db₂ = (db₁.login name w₂).2)
    (hdb3 : db₃ = (db₂.login name w₃).2) :
    (db.login name w₁).1 = .error (.err wrong_uname_msg)
    ∧ (db₁.login name w₂).1 = .error (.err wrong_uname_msg)
    ∧ (db₂.login name w₃).1 = .error (.err "account is blocked")
    ∧ (∀ q : String, (db₃.login name q).1 = .error (.err "account if blocked"))
    ∧ (db₃.unblock name).1 = .ok ()
    ∧ ((db₃.unblock name).2.login name u.pass).1 = .ok uid
    ∧ (∀ v : User, v.is_blocked = false →
        (v.verify_pass v.pass).1 = .ok () ∧ (v.verify_pass v.pass).2.last_login_tries = 0) := by
  have s1 := login_fail_nonfinal db name uid u hn hu
    (by rw [h0]; decide) w₁ hw1
  have hdb1' : db₁ = { db with users := updateA db.users uid { u with last_login_tries := u.last_login_tries + 1 } } := by
    rw [hdb1, s1]
  have hn1 : lookupA db₁.unames name = some uid := by rw [hdb1']; exact hn
  have hu1 : lookupA db₁.users uid = some { u with last_login_tries := u.last_login_tries + 1 } := by
    rw [hdb1']
    exact lookupA_updateA_self _ hu
  have s2 := login_fail_nonfinal db₁ name uid _ hn1 hu1
    (by show u.last_login_tries + 1 + 1 < MAX_LOGIN_TRIES; rw [h0]; decide) w₂ hw2
  have hdb2' : db₂ = { db₁ with users := updateA db₁.users uid { u with last_login_tries := u.last_login_tries + 1 + 1 } } := by
    rw [hdb2, s2]
  have hn2 : lookupA db₂.unames name = some uid := by rw [hdb2']; exact hn1
  have hu2 : lookupA db₂.users uid = some { u with last_login_tries := u.last_login_tries + 1 + 1 } := by
    rw [hdb2']
    exact lookupA_updateA_self _ hu1
  have s3 := login_fail_final db₂ name uid _ hn2 hu2
    (by show u.last_login_tries + 1 + 1 < MAX_LOGIN_TRIES; rw [h0]; decide)
    (by show u.last_login_tries + 1 + 1 + 1 ≥ MAX_LOGIN_TRIES; rw [h0]; decide) w₃ hw3
  have hdb3' : db₃ = { db₂ with users := updateA db₂.users uid { u with last_login_tries := u.last_login_tries + 1 + 1 + 1 } } := by
    rw [hdb3, s3]
  have hn3 : lookupA db₃.unames name = some uid := by rw [hdb3']; exact hn2
  have hu3 : lookupA db₃.users uid = some { u with last_login_tries := u.last_login_tries + 1 + 1 + 1 } := by
    rw [hdb3']
    exact lookupA_updateA_self _ hu2
  refine ⟨by rw [s1], by rw [s2], by rw [s3], ?_, ?_, ?_, ?_⟩
  · intro q
    exact login_blocked db₃ name uid _ hn3 hu3
      (by show u.last_login_tries + 1 + 1 + 1 ≥ MAX_LOGIN_TRIES; rw [h0]; decide) q
  · unfold UserDb.unblock UserDb.id_of
    simp only [hn3, hu3]
  · have hub : (db₃.unblock name).2 =
        { db₃ with users := updateA db₃.users uid { u with last_login_tries := 0 } } := by
      unfold UserDb.unblock UserDb.id_of
      simp only [hn3, hu3]
    have hn4 : lookupA (db₃.unblock name).2.unames name = some uid := by rw [hub]; exact hn3
    have hu4 : lookupA (db₃.unblock name).2.users uid = some { u with last_login_tries := 0 } := by
      rw [hub]
      exact lookupA_updateA_self _ hu3
    have := login_ok (db₃.unblock name).2 name uid { u with last_login_tries := 0 } hn4 hu4
      (by show (0 : Nat) < MAX_LOGIN_TRIES; decide)
    rw [this]
  · intro v hv
    unfold User.verify_pass
    simp only [hv, Bool.false_eq_true, if_false, ite_false, if_pos rfl]
    exact ⟨rfl, rfl⟩

/-- Witness for C5 at a concrete input: the account `bob` (password `pw`),
three wrong attempts `x`, then the correct password fails blocked, and after
the unblock it succeeds with uid 1. -/
theorem login_lockout_witness :
    ((((dbB.login "bob" "x").2.login "bob" "x").2.login "bob" "x").2.login "bob" "pw").1
        = .error (.err "account if blocked")
    ∧ (((((dbB.login "bob" "x").2.login "bob" "x").2.login "bob" "x").2.unblock "bob").2.login
        "bob" "pw").1 = .ok 1 := by
  have h := login_lockout dbB "bob" 1 ⟨1, "bob", "pw", 0⟩ (by decide) (by decide) rfl
    "x" "x" "x" (by decide) (by decide) (by decide)
    (dbB.login "bob" "x").2 ((dbB.login "bob" "x").2.login "bob" "x").2
    (((dbB.login "bob" "x").2.login "bob" "x").2.login "bob" "x").2 rfl rfl rfl
  exact ⟨h.2.2.2.1 "pw", h.2.2.2.2.2.1⟩

/-- The `ls` entry loop succeeds when no binding dangles, and the produced
list holds one entry per readable binding, built from the raw node data. -/
theorem lsEntries_ok (fs : Fs) (uid : UserId) :
    ∀ l : List (String × NodeId),
      (∀ p ∈ l, ∃ m, lookupA fs.nodes p.2 = some m) →
      ∃ es, lsEntries fs uid l = .ok es ∧
        ∀ name id, (name, id) ∈ l → ∀ cn, fs.get_node uid id = .ok cn →
          (⟨cn.tag, name, cn.perms_for uid, cn.size⟩ : NodeEntry) ∈ es := by
  intro l
  induction l with
  | nil => exact fun _ => ⟨[], rfl, by simp⟩
  | cons hd rest ih =>
    intro hl
    obtain ⟨name, id⟩ := hd
    obtain ⟨m, hm⟩ := hl (name, id) (List.mem_cons_self _ _)
    obtain ⟨es, hes, hmem⟩ := ih (fun p hp => hl p (List.mem_cons_of_mem _ hp))
    cases hg : fs.get_node uid id with
    | ok node =>
      refine ⟨⟨node.tag, name, node.perms_for uid, node.size⟩ :: es, ?_, ?_⟩
      · simp only [lsEntries, hg, hes]
      · intro name' id' hmem' cn hcn
        rcases List.mem_cons.mp hmem' with h1 | h1
        · rw [Prod.mk.injEq] at h1
          obtain ⟨rfl, rfl⟩ := h1
          rw [hg] at hcn
          cases hcn
          exact List.mem_cons_self _ _
        · exact List.mem_cons_of_mem _ (hmem name' id' h1 cn hcn)
    | error e =>
      cases e with
      | panic pm => exact absurd hg (get_node_not_panic fs uid id hm pm)
      | err em =>
        refine ⟨es, ?_, ?_⟩
        · simp only [lsEntries, hg, hes]
        · intro name' id' hmem' cn hcn
          rcases List.mem_cons.mp hmem' with h1 | h1
          · rw [Prod.mk.injEq] at h1
            obtain ⟨rfl, rfl⟩ := h1
            rw [hg] at hcn
            cases hcn
          · exact hmem name' id' h1 cn hcn

/-- Emptiness via the raw-length comparison: a directory holding its two
self bindings with no duplicate names is `is_empty` exactly when every
binding is a self binding. -/
theorem dir_is_empty_iff (d : Dir) (a b : NodeId) (hdot : (".", a) ∈ d.nodes)
    (hdotdot : ("..", b) ∈ d.nodes) (hnd : (d.nodes.map Prod.fst).Nodup) :
    (d.is_empty = true ↔ ∀ p ∈ d.nodes, p.1 = "." ∨ p.1 = "..") := by
  have hdm : "." ∈ d.nodes.map Prod.fst := List.mem_map_of_mem Prod.fst hdot
  have hddm : ".." ∈ d.nodes.map Prod.fst := List.mem_map_of_mem Prod.fst hdotdot
  unfold Dir.is_empty Dir.len
  simp only [beq_iff_eq]
  constructor
  · intro hlen p hp
    by_contra hne
    push_neg at hne
    obtain ⟨hne1, hne2⟩ := hne
    have hsub : [".", "..", p.1] ⊆ d.nodes.map Prod.fst := by
      intro x hx
      rcases List.mem_cons.mp hx with rfl | hx
      · exact hdm
      rcases List.mem_cons.mp hx with rfl | hx
      · exact hddm
      rcases List.mem_cons.mp hx with rfl | hx
      · exact List.mem_map_of_mem Prod.fst hp
      · cases hx
    have hnd3 : ([".", "..", p.1] : List String).Nodup := by
      simp [List.nodup_cons, hne1.symm, hne2.symm]
    have := (List.subperm_of_subset hnd3 hsub).length_le
    rw [List.length_map] at this
    simp only [List.length_cons, List.length_nil] at this
    omega
  · intro hall
    have hle : d.nodes.map Prod.fst ⊆ [".", ".."] := by
      intro x hx
      obtain ⟨p, hp, rfl⟩ := List.mem_map.mp hx
      rcases hall p hp with h | h <;> simp [h]
    have h1 := (List.subperm_of_subset hnd hle).length_le
    have hge : ([".", ".."] : List String) ⊆ d.nodes.map Prod.fst := by
      intro x hx
      rcases List.mem_cons.mp hx with rfl | hx
      · exact hdm
      rcases List.mem_cons.mp hx with rfl | hx
      · exact hddm
      · cases hx
    have h2 := (List.subperm_of_subset (by decide) hge).length_le
    rw [List.length_map] at h1
    rw [List.length_map] at h2
    simp at h1 h2
    omega

/-- C2 (amended): the two self bindings are excluded from the emptiness
check — a directory holding `.` and `..` is empty exactly when it holds
nothing else — but they are NOT excluded from listing or from the reported
size: `ls` yields one entry per readable binding, `.` and `..` included, and
the size it reports for a directory child is the raw entry count
`Dir::len`, which counts the self bindings. -/
theorem ls_and_emptiness_amended :
    (∀ (d : Dir) (a b : NodeId), (".", a) ∈ d.nodes → ("..", b) ∈ d.nodes →
      (d.nodes.map Prod.fst).Nodup →
      (d.is_empty = true ↔ ∀ p ∈ d.nodes, p.1 = "." ∨ p.1 = ".."))
    ∧ (∀ (fs : Fs) (uid : UserId) (path : Path) (n : Node) (d : Dir),
        fs.resolve_path uid path = .ok n → n.kind = .dir d →
        (∀ p ∈ d.nodes, ∃ m, lookupA fs.nodes p.2 = some m) →
        ∃ es, fs.ls uid path = .ok es ∧
          ∀ name id, (name, id) ∈ d.nodes → ∀ cn, fs.get_node uid id = .ok cn →
            (⟨cn.tag, name, cn.perms_for uid, cn.size⟩ : NodeEntry) ∈ es) := by
  constructor
  · exact dir_is_empty_iff
  · intro fs uid path n d hres hkind hlive
    obtain ⟨es, hes, hmem⟩ := lsEntries_ok fs uid d.nodes hlive
    refine ⟨es, ?_, hmem⟩
    have had : n.as_dir = .ok d := by
      unfold Node.as_dir
      rw [hkind]
    unfold Fs.ls
    rw [hres]
    show (match n.as_dir with
          | Except.error e => Except.error e
          | Except.ok dir => lsEntries fs uid dir.nodes) = Except.ok es
    rw [had]
    exact hes

/-- Witness for the amended C2 at a concrete input: the singleton store with
one empty directory `/d`; its root directory is not empty, listing the root
produces entries for `.`, `..` and `d`, and `d` (an empty directory holding
exactly its two self bindings) reports size 2. -/
theorem ls_and_emptiness_amended_witness :
    ((Dir.mk [(".", 1), ("..", 0)]).is_empty = true ↔
      ∀ p ∈ [(".", 1), ("..", 0)], p.1 = "." ∨ p.1 = "..")
    ∧ ∃ es, c2fs.ls 0 [] = .ok es ∧
        ∀ name id, (name, id) ∈ [(".", 0), ("..", 0), ("d", 1)] →
          ∀ cn, c2fs.get_node 0 id = .ok cn →
            (⟨cn.tag, name, cn.perms_for 0, cn.size⟩ : NodeEntry) ∈ es := by
  constructor
  · exact ls_and_emptiness_amended.1 ⟨[(".", 1), ("..", 0)]⟩ 1 0 (by decide) (by decide)
      (by decide)
  · exact ls_and_emptiness_amended.2 c2fs 0 []
      (⟨0, NodeKind.dir ⟨[(".", 0), ("..", 0), ("d", 1)]⟩, AccessMap.empty⟩ : Node)
      (⟨[(".", 0), ("..", 0), ("d", 1)]⟩ : Dir) (by decide) rfl
      (by
        intro p hp
        fin_cases hp
        · exact ⟨_, rfl⟩
        · exact ⟨_, rfl⟩
        · exact ⟨_, rfl⟩)

/-- C3 (amended): an action that passes the session gate and does not panic
appends exactly one audit entry, tagged with the caller's id and the action
description; on success the entry records `Ok(())`, on failure it records
the failure INCLUDING the error message (the Debug rendering of the result)
— with one exception: a `SetPerms` action naming an unknown username returns
the `user not found` error from `exec` (the `?` on `users.id_of` fires before
the logging statement) and appends NO entry, leaving the state untouched; an
action rejected by the session gate appends no entry at all either. -/
theorem audit_one_entry_amended (s : System) (now : Nat) (uid : UserId) (cmd : Action) :
    (∀ t, lookupA s.last_access uid = some t → ¬ now - t > INACTIVITY_TIMEOUT →
      (∀ path username perms e, cmd = .set_perms path username perms →
        s.users.id_of username = .error e →
        (s.exec now uid cmd).1 = .error e ∧ (s.exec now uid cmd).2 = s)
      ∧ ((∀ path username perms, cmd = .set_perms path username perms →
            ∃ tu, s.users.id_of username = .ok tu) →
        (∀ a, (s.dispatch uid cmd).1 = .ok a →
          (s.exec now uid cmd).1 = .ok a ∧
          (s.exec now uid cmd).2.logger.logs =
            s.logger.logs ++
              [Log.new_with_uid .info uid ("action " ++ cmd.display ++ " => " ++ "Ok(())") now])
        ∧ (∀ m, (s.dispatch uid cmd).1 = .error (.err m) →
          (s.exec now uid cmd).1 = .error (.err m) ∧
          (s.exec now uid cmd).2.logger.logs =
            s.logger.logs ++
              [Log.new_with_uid .info uid
                ("action " ++ cmd.display ++ " => " ++ ("Err(" ++ m ++ ")")) now])))
    ∧ (lookupA s.last_access uid = Option.none →
        (s.exec now uid cmd).2.logger.logs = s.logger.logs)
    ∧ (∀ t, lookupA s.last_access uid = some t → now - t > INACTIVITY_TIMEOUT →
        (s.exec now uid cmd).2.logger.logs = s.logger.logs) := by
  refine ⟨?_, ?_, ?_⟩
  · intro t ht hngt
    constructor
    · intro path username perms e hcmd hid
      have hear : earlyReturn s cmd = some e := by
        rw [hcmd]
        show (match s.users.id_of username with
              | .error e => some e
              | .ok _ => Option.none) = some e
        rw [hid]
      unfold System.exec
      simp only [ht]
      rw [if_neg hngt]
      simp only [hear]
      exact ⟨trivial, trivial⟩
    · intro hok
      have hear : earlyReturn s cmd = Option.none := by
        cases cmd with
        | set_perms path username perms =>
          obtain ⟨tu, htu⟩ := hok path username perms rfl
          show (match s.users.id_of username with
                | .error e => some e
                | .ok _ => Option.none) = Option.none
          rw [htu]
        | read p => rfl
        | write p d => rfl
        | rm p => rfl
        | new_file p => rfl
        | new_dir p => rfl
        | exec p => rfl
        | ls p => rfl
        | add_user n => rfl
        | change_password o n => rfl
        | unblock n => rfl
        | logs => rfl
      constructor
      · intro a ha
        unfold System.exec
        simp only [ht]
        rw [if_neg hngt]
        simp only [hear, ha, Logger.log, resRepr, dispatch_logger]
        exact ⟨trivial, trivial⟩
      · intro m hm
        unfold System.exec
        simp only [ht]
        rw [if_neg hngt]
        simp only [hear, hm, Logger.log, resRepr, dispatch_logger]
        exact ⟨trivial, trivial⟩
  · intro h
    unfold System.exec
    simp only [h]
  · intro t ht hgt
    unfold System.exec
    simp only [ht]
    rw [if_pos hgt]

/-- Witness for the amended C3 at concrete inputs: the logged-in admin
creates `/d` and exactly one entry is appended, tagged uid 0, recording
`Ok(())`; the same admin then issues a `SetPerms` naming the unknown user
`ghost`, which fails with `user not found` and appends nothing, leaving the
system unchanged. -/
theorem audit_one_entry_amended_witness :
    ((c3sys.exec 0 0 (Action.new_dir ["d"])).1 = .ok ActionRes.ok ∧
      (c3sys.exec 0 0 (Action.new_dir ["d"])).2.logger.logs =
        c3sys.logger.logs ++ [⟨.info, some 0, "action new-dir(\"d\") => Ok(())", 0⟩])
    ∧ ((c3sys.exec 0 0 (Action.set_perms ["d"] "ghost" Perms.none)).1
          = .error (.err "user not found")
      ∧ (c3sys.exec 0 0 (Action.set_perms ["d"] "ghost" Perms.none)).2 = c3sys) :=
  ⟨(((audit_one_entry_amended c3sys 0 0 (Action.new_dir ["d"])).1 0 (by decide)
      (by decide)).2 (fun path username perms h => by cases h)).1 ActionRes.ok (by decide),
   ((audit_one_entry_amended c3sys 0 0 (Action.set_perms ["d"] "ghost" Perms.none)).1 0
      (by decide) (by decide)).1 ["d"] "ghost" Perms.none (.err "user not found")
      rfl (by decide)⟩

/-! ## No dispatched operation ever produces the session-gate error message

`System::exec` returns the `AuthenticationRequired` error only from its gate:
every error constructed below the gate carries a different message.  `NotAuth`
states that an operation's result is never that exact error. -/

def NotAuth {α : Type} (r : Except Err α) : Prop :=
  ∀ m, r = .error (.err m) → m ≠ auth_required_msg

theorem notAuth_ok {α : Type} (a : α) : NotAuth (Except.ok a) := by
  intro m hm
  cases hm

theorem notAuth_panic {α : Type} (pm : String) :
    NotAuth (Except.error (Err.panic pm) : Except Err α) := by
  intro m hm
  cases hm

theorem notAuth_err {α : Type} {m0 : String} (h : m0 ≠ auth_required_msg) :
    NotAuth (Except.error (Err.err m0) : Except Err α) := by
  intro m hm
  injection hm with he
  injection he with hs
  rw [← hs]
  exact h

/-- Transfer `NotAuth` across the rewrapping of an error at another result
type. -/
theorem notAuth_error_resolve {α β : Type} {x : Except Err α} (h : NotAuth x)
    {e : Err} (hx : x = .error e) : NotAuth (Except.error e : Except Err β) := by
  intro m hm
  injection hm with he
  exact h m (by rw [hx, he])

theorem notAuth_map {α β : Type} {x : Except Err α} (f : α → β) (h : NotAuth x) :
    NotAuth (x.map f) := by
  cases hx : x with
  | ok a => exact notAuth_ok _
  | error e => exact notAuth_error_resolve h hx

theorem strDataAppend (a b : String) : (a ++ b).data = a.data ++ b.data := by
  obtain ⟨ad⟩ := a
  obtain ⟨bd⟩ := b
  rfl

theorem file_msg_ne_auth (name : String) :
    ("file " ++ name ++ " doesn\x27t exist") ≠ auth_required_msg := by
  obtain ⟨nd⟩ := name
  intro h
  have hd := congrArg String.data h
  rw [strDataAppend, strDataAppend, List.append_assoc] at hd
  have hx : (['f'] : List Char) = ['i'] := congrArg (List.take 1) hd
  exact absurd hx (by decide)

theorem notAuth_dir_lookup (d : Dir) (name : String) : NotAuth (d.lookup name) := by
  unfold Dir.lookup
  cases lookupA d.nodes name with
  | none => exact notAuth_err (file_msg_ne_auth name)
  | some id => exact notAuth_ok _

theorem notAuth_as_file (n : Node) : NotAuth n.as_file := by
  unfold Node.as_file
  cases n.kind with
  | file f => exact notAuth_ok _
  | dir d => exact notAuth_err (by decide)

theorem notAuth_as_dir (n : Node) : NotAuth n.as_dir := by
  unfold Node.as_dir
  cases n.kind with
  | file f => exact notAuth_err (by decide)
  | dir d => exact notAuth_ok _

theorem notAuth_check (n : Node) (uid : UserId) (ops : List Op) :
    NotAuth (n.check_if_allowed uid ops) := by
  unfold Node.check_if_allowed
  cases ha : n.perms.allows uid ops with
  | true => exact notAuth_ok _
  | false => exact notAuth_err (by decide)

theorem notAuth_get_node (fs : Fs) (uid : UserId) (id : NodeId) :
    NotAuth (fs.get_node uid id) := by
  unfold Fs.get_node
  cases lookupA fs.nodes id with
  | none => exact notAuth_panic _
  | some node =>
    dsimp only
    cases hc : node.check_if_allowed uid [Op.read] with
    | error e => exact notAuth_error_resolve (notAuth_check node uid _) hc
    | ok u => exact notAuth_ok _

theorem notAuth_get_node_mut (fs : Fs) (uid : UserId) (id : NodeId) :
    NotAuth (fs.get_node_mut uid id) := by
  unfold Fs.get_node_mut
  cases lookupA fs.nodes id with
  | none => exact notAuth_panic _
  | some node =>
    dsimp only
    cases hc : node.check_if_allowed uid [Op.write] with
    | error e => exact notAuth_error_resolve (notAuth_check node uid _) hc
    | ok u => exact notAuth_ok _

theorem notAuth_fs_lookup (fs : Fs) (uid : UserId) (pid : NodeId) (name : String) :
    NotAuth (fs.lookup uid pid name) := by
  unfold Fs.lookup
  cases hg : fs.get_node uid pid with
  | error e => exact notAuth_error_resolve (notAuth_get_node fs uid pid) hg
  | ok p =>
    dsimp only
    cases hd : p.as_dir with
    | error e => exact notAuth_error_resolve (notAuth_as_dir p) hd
    | ok dir =>
      dsimp only
      cases hl : dir.lookup name with
      | error e => exact notAuth_error_resolve (notAuth_dir_lookup dir name) hl
      | ok node_id => exact notAuth_get_node fs uid node_id

theorem notAuth_reduce_segments {α : Type} (path : Path) (f : α → String → Except Err α)
    (hf : ∀ a name, NotAuth (f a name)) :
    ∀ start, NotAuth (reduce_segments path start f) := by
  induction path with
  | nil => exact fun start => notAuth_ok _
  | cons name rest ih =>
    intro start
    unfold reduce_segments
    cases hc : f start name with
    | error e => exact notAuth_error_resolve (hf start name) hc
    | ok next => exact ih next

theorem notAuth_resolve_path (fs : Fs) (uid : UserId) (path : Path) :
    NotAuth (fs.resolve_path uid path) := by
  unfold Fs.resolve_path
  cases hg : fs.get_node uid ROOT_ID with
  | error e => exact notAuth_error_resolve (notAuth_get_node fs uid ROOT_ID) hg
  | ok root =>
    exact notAuth_reduce_segments path _ (fun a name => notAuth_fs_lookup fs uid a.id name) root

theorem notAuth_resolve_path_mut (fs : Fs) (uid : UserId) (path : Path) :
    NotAuth (fs.resolve_path_mut uid path) := by
  unfold Fs.resolve_path_mut
  cases hg : fs.resolve_path uid path with
  | error e => exact notAuth_error_resolve (notAuth_resolve_path fs uid path) hg
  | ok n => exact notAuth_get_node_mut fs uid n.id

theorem notAuth_filename (path : Path) : NotAuth (filename path) := by
  unfold filename
  cases path.getLast? with
  | none => exact notAuth_err (by decide)
  | some n =>
    dsimp only
    by_cases h : n = "." ∨ n = ".."
    · rw [if_pos h]
      exact notAuth_err (by decide)
    · rw [if_neg h]
      exact notAuth_ok _

theorem notAuth_create (fs : Fs) (uid : UserId) (pid : NodeId) (name : String)
    (tag : NodeTag) : NotAuth (fs.create uid pid name tag) := by
  unfold Fs.create
  cases hg : fs.get_node_mut uid pid with
  | error e => exact notAuth_error_resolve (notAuth_get_node_mut fs uid pid) hg
  | ok parent =>
    dsimp only
    cases hd : parent.as_dir with
    | error e => exact notAuth_error_resolve (notAuth_as_dir parent) hd
    | ok d =>
      dsimp only
      by_cases hc : d.contains name = true
      · rw [if_pos hc]
        exact notAuth_err (by decide)
      · rw [if_neg hc]
        exact notAuth_ok _

theorem notAuth_fs_read (fs : Fs) (uid : UserId) (path : Path) :
    NotAuth (fs.read uid path) := by
  unfold Fs.read
  cases hg : fs.resolve_path uid path with
  | error e => exact notAuth_error_resolve (notAuth_resolve_path fs uid path) hg
  | ok n =>
    dsimp only
    cases hf : n.as_file with
    | error e => exact notAuth_error_resolve (notAuth_as_file n) hf
    | ok f => exact notAuth_ok _

theorem notAuth_fs_write (fs : Fs) (uid : UserId) (path : Path) (data : String) :
    NotAuth (fs.write uid path data) := by
  unfold Fs.write
  cases hg : fs.resolve_path_mut uid path with
  | error e => exact notAuth_error_resolve (notAuth_resolve_path_mut fs uid path) hg
  | ok n =>
    dsimp only
    cases hf : n.as_file with
    | error e => exact notAuth_error_resolve (notAuth_as_file n) hf
    | ok f => exact notAuth_ok _

theorem notAuth_fs_rm (fs : Fs) (uid : UserId) (path : Path) :
    NotAuth (fs.rm uid path) := by
  unfold Fs.rm
  cases hn : filename path with
  | error e => exact notAuth_error_resolve (notAuth_filename path) hn
  | ok name =>
    dsimp only
    cases hp : fs.resolve_parent_of uid path with
    | error e => exact notAuth_error_resolve (notAuth_resolve_path fs uid (parentPath path)) hp
    | ok parent =>
      dsimp only
      cases hd : parent.as_dir with
      | error e => exact notAuth_error_resolve (notAuth_as_dir parent) hd
      | ok pd =>
        dsimp only
        cases hl : pd.lookup name with
        | error e => exact notAuth_error_resolve (notAuth_dir_lookup pd name) hl
        | ok id =>
          dsimp only
          cases hg : fs.get_node uid id with
          | error e => exact notAuth_error_resolve (notAuth_get_node fs uid id) hg
          | ok node =>
            dsimp only
            by_cases hne : (match node.kind with
                | .dir d => !d.is_empty
                | .file _ => false) = true
            · rw [if_pos hne]
              exact notAuth_err (by decide)
            · rw [if_neg hne]
              cases hm : fs.get_node_mut uid parent.id with
              | error e => exact notAuth_error_resolve (notAuth_get_node_mut fs uid parent.id) hm
              | ok parent2 =>
                dsimp only
                cases hd2 : parent2.as_dir with
                | error e => exact notAuth_error_resolve (notAuth_as_dir parent2) hd2
                | ok pd2 =>
                  dsimp only
                  cases (pd2.rm name).1 with
                  | none => exact notAuth_panic _
                  | some old => exact notAuth_ok _

theorem notAuth_fs_new_file (fs : Fs) (uid : UserId) (path : Path) :
    NotAuth (fs.new_file uid path) := by
  unfold Fs.new_file
  cases hp : fs.resolve_parent_of_mut uid path with
  | error e =>
    exact notAuth_error_resolve (notAuth_resolve_path_mut fs uid (parentPath path)) hp
  | ok parent =>
    dsimp only
    cases hn : filename path with
    | error e => exact notAuth_error_resolve (notAuth_filename path) hn
    | ok name =>
      dsimp only
      cases hc : fs.create uid parent.id name .file with
      | error e => exact notAuth_error_resolve (notAuth_create fs uid parent.id name .file) hc
      | ok r => exact notAuth_ok _

theorem notAuth_fs_new_dir (fs : Fs) (uid : UserId) (path : Path) :
    NotAuth (fs.new_dir uid path) := by
  unfold Fs.new_dir
  cases hp : fs.resolve_parent_of_mut uid path with
  | error e =>
    exact notAuth_error_resolve (notAuth_resolve_path_mut fs uid (parentPath path)) hp
  | ok parent =>
    dsimp only
    cases hn : filename path with
    | error e => exact notAuth_error_resolve (notAuth_filename path) hn
    | ok name =>
      dsimp only
      cases hc : fs.create uid parent.id name .dir with
      | error e => exact notAuth_error_resolve (notAuth_create fs uid parent.id name .dir) hc
      | ok r => exact notAuth_ok _

theorem notAuth_fs_exec (fs : Fs) (uid : UserId) (path : Path) :
    NotAuth (fs.exec uid path) := by
  unfold Fs.exec
  cases hg : fs.resolve_path uid path with
  | error e => exact notAuth_error_resolve (notAuth_resolve_path fs uid path) hg
  | ok node => exact notAuth_check node uid _

theorem notAuth_fs_set_perms (fs : Fs) (uid : UserId) (path : Path) (perms : Perms) :
    NotAuth (fs.set_perms uid path perms) := by
  unfold Fs.set_perms
  cases hg : fs.resolve_path_mut uid path with
  | error e => exact notAuth_error_resolve (notAuth_resolve_path_mut fs uid path) hg
  | ok node =>
    dsimp only
    cases hc : node.check_if_allowed uid [Op.control] with
    | error e => exact notAuth_error_resolve (notAuth_check node uid _) hc
    | ok u => exact notAuth_ok _

theorem notAuth_lsEntries (fs : Fs) (uid : UserId) :
    ∀ l : List (String × NodeId), NotAuth (lsEntries fs uid l) := by
  intro l
  induction l with
  | nil => exact notAuth_ok _
  | cons hd rest ih =>
    obtain ⟨name, id⟩ := hd
    unfold lsEntries
    cases hg : fs.get_node uid id with
    | ok node =>
      dsimp only
      cases hr : lsEntries fs uid rest with
      | error e => exact notAuth_error_resolve ih hr
      | ok es => exact notAuth_ok _
    | error e =>
      cases e with
      | panic pm => exact notAuth_panic _
      | err em => exact ih

theorem notAuth_fs_ls (fs : Fs) (uid : UserId) (path : Path) :
    NotAuth (fs.ls uid path) := by
  unfold Fs.ls
  cases hg : fs.resolve_path uid path with
  | error e => exact notAuth_error_resolve (notAuth_resolve_path fs uid path) hg
  | ok n =>
    dsimp only
    cases hd : n.as_dir with
    | error e => exact notAuth_error_resolve (notAuth_as_dir n) hd
    | ok dir => exact notAuth_lsEntries fs uid dir.nodes

theorem notAuth_verify_pass (u : User) (pass : String) :
    NotAuth (u.verify_pass pass).1 := by
  unfold User.verify_pass
  cases hb : u.is_blocked with
  | true => exact notAuth_err (by decide)
  | false =>
    by_cases hp : pass = u.pass
    · rw [if_pos hp]
      exact notAuth_ok _
    · rw [if_neg hp]
      dsimp only
      by_cases hm : u.last_login_tries + 1 ≥ MAX_LOGIN_TRIES
      · rw [if_pos hm]
        exact notAuth_err (by decide)
      · rw [if_neg hm]
        exact notAuth_err (by decide)

theorem notAuth_login_with_id (db : UserDb) (uid : UserId) (pass : String) :
    NotAuth (db.login_with_id uid pass).1 := by
  unfold UserDb.login_with_id
  cases lookupA db.users uid with
  | none => exact notAuth_err (by decide)
  | some u => exact notAuth_verify_pass u pass

theorem notAuth_db_login (db : UserDb) (name pass : String) :
    NotAuth (db.login name pass).1 := by
  unfold UserDb.login
  cases lookupA db.unames name with
  | none => exact notAuth_err (by decide)
  | some uid => exact notAuth_map _ (notAuth_login_with_id db uid pass)

theorem notAuth_change_pass (db : UserDb) (uid : UserId) (old_pass new_pass : String) :
    NotAuth (db.change_pass uid old_pass new_pass).1 := by
  unfold UserDb.change_pass
  cases hl : db.login_with_id uid old_pass with
  | mk r db2 =>
    cases r with
    | error e =>
      exact notAuth_error_resolve (notAuth_login_with_id db uid old_pass) (by rw [hl])
    | ok u =>
      dsimp only
      cases lookupA db2.users uid with
      | none => exact notAuth_panic _
      | some u2 => exact notAuth_ok _

theorem notAuth_id_of (db : UserDb) (username : String) : NotAuth (db.id_of username) := by
  unfold UserDb.id_of
  cases lookupA db.unames username with
  | none => exact notAuth_err (by decide)
  | some id => exact notAuth_ok _

theorem notAuth_add_user (db : UserDb) (name pass : String) :
    NotAuth (db.add_user name pass) := by
  unfold UserDb.add_user
  by_cases hc : containsA db.unames name = true
  · rw [if_pos hc]
    exact notAuth_err (by decide)
  · rw [if_neg hc]
    exact notAuth_ok _

theorem notAuth_unblock (db : UserDb) (username : String) :
    NotAuth (db.unblock username).1 := by
  unfold UserDb.unblock
  cases hi : db.id_of username with
  | error e => exact notAuth_error_resolve (notAuth_id_of db username) hi
  | ok id =>
    dsimp only
    cases lookupA db.users id with
    | none => exact notAuth_panic _
    | some u => exact notAuth_ok _

theorem notAuth_sys_add_user (s : System) (uid : UserId) (name : String) :
    NotAuth (s.add_user uid name).1 := by
  unfold System.add_user
  by_cases h : uid = ADMIN_ID
  · rw [if_pos h]
    cases ha : s.users.add_user name "" with
    | error e => exact notAuth_error_resolve (notAuth_add_user s.users name "") ha
    | ok r => exact notAuth_ok _
  · rw [if_neg h]
    exact notAuth_err (by decide)

theorem notAuth_sys_unblock (s : System) (uid : UserId) (username : String) :
    NotAuth (s.unblock_user uid username).1 := by
  unfold System.unblock_user
  by_cases h : uid ≠ ADMIN_ID
  · rw [if_pos h]
    exact notAuth_err (by decide)
  · rw [if_neg h]
    exact notAuth_unblock s.users username

theorem notAuth_sys_logs (s : System) (uid : UserId) : NotAuth (s.logs uid) := by
  unfold System.logs
  by_cases h : uid = ADMIN_ID
  · rw [if_pos h]
    exact notAuth_ok _
  · rw [if_neg h]
    exact notAuth_err (by decide)

theorem notAuth_liftFs (s : System) {x : Except Err Fs} (h : NotAuth x) :
    NotAuth (liftFs s x).1 := by
  cases hx : x with
  | ok fs2 => exact notAuth_ok _
  | error e => exact notAuth_error_resolve h hx

theorem notAuth_dispatch (s : System) (uid : UserId) (cmd : Action) :
    NotAuth (s.dispatch uid cmd).1 := by
  cases cmd with
  | read p => exact notAuth_map _ (notAuth_fs_read s.fs uid p)
  | write p data => exact notAuth_liftFs s (notAuth_fs_write s.fs uid p data)
  | rm p => exact notAuth_liftFs s (notAuth_fs_rm s.fs uid p)
  | new_file p => exact notAuth_liftFs s (notAuth_fs_new_file s.fs uid p)
  | new_dir p => exact notAuth_liftFs s (notAuth_fs_new_dir s.fs uid p)
  | exec p =>
    unfold System.dispatch
    dsimp only
    cases he : s.fs.exec uid p with
    | ok u => exact notAuth_ok _
    | error e => exact notAuth_error_resolve (notAuth_fs_exec s.fs uid p) he
  | set_perms p username perms =>
    unfold System.dispatch
    dsimp only
    cases hi : s.users.id_of username with
    | error e => exact notAuth_error_resolve (notAuth_id_of s.users username) hi
    | ok fu =>
      dsimp only
      exact notAuth_liftFs s (notAuth_fs_set_perms s.fs uid p perms)
  | ls p => exact notAuth_map _ (notAuth_fs_ls s.fs uid p)
  | add_user name => exact notAuth_map _ (notAuth_sys_add_user s uid name)
  | change_password old new => exact notAuth_map _ (notAuth_change_pass s.users uid old new)
  | unblock username => exact notAuth_map _ (notAuth_sys_unblock s uid username)
  | logs => exact notAuth_map _ (notAuth_sys_logs s uid)

/-- A successful `System::login` stamps the session table with the login
instant. -/
theorem login_stamps (s : System) (now : Nat) (name pass : String) (uid' : UserId)
    (h : (s.login now name pass).1 = .ok uid') :
    (s.login now name pass).2.last_access = insertA s.last_access uid' now := by
  unfold System.login at h ⊢
  dsimp only at h ⊢
  cases he : s.users.login name pass with
  | mk r users2 =>
    cases r with
    | ok uid0 =>
      rw [he] at h
      dsimp only at h
      injection h with hu
      rw [hu]
    | error e =>
      rw [he] at h
      dsimp only at h
      cases h

/-- The `?` early return of the `SetPerms` arm (an `id_of` failure) never
yields the session-gate error message. -/
theorem notAuth_early_return (s : System) (cmd : Action) {e : Err}
    (h : earlyReturn s cmd = some e) (m : String) (he : e = .err m) :
    m ≠ auth_required_msg := by
  cases cmd with
  | set_perms path username perms =>
    have h2 : (match s.users.id_of username with
               | .error e => some e
               | .ok _ => Option.none) = some e := h
    cases hid : s.users.id_of username with
    | error e' =>
      rw [hid] at h2
      injection h2 with h2
      exact notAuth_id_of s.users username m (by rw [hid, h2, he])
    | ok tu =>
      rw [hid] at h2
      cases h2
  | read p => exact Option.noConfusion h
  | write p d => exact Option.noConfusion h
  | rm p => exact Option.noConfusion h
  | new_file p => exact Option.noConfusion h
  | new_dir p => exact Option.noConfusion h
  | exec p => exact Option.noConfusion h
  | ls p => exact Option.noConfusion h
  | add_user n => exact Option.noConfusion h
  | change_password o n => exact Option.noConfusion h
  | unblock n => exact Option.noConfusion h
  | logs => exact Option.noConfusion h

/-- C6: a non-login action is rejected with the `AuthenticationRequired`
error exactly when the caller has no recorded login or more than the fixed
60-second window has elapsed since that login; the session table is never
modified by `exec` (an intervening successful action does not extend the
window), and a successful `login` is the only event that stamps it. -/
theorem session_gate_exact (s : System) (now : Nat) (uid : UserId) (cmd : Action) :
    ((s.exec now uid cmd).1 = .error (.err auth_required_msg) ↔
      (lookupA s.last_access uid = Option.none ∨
        ∃ t, lookupA s.last_access uid = some t ∧ now - t > INACTIVITY_TIMEOUT))
    ∧ (s.exec now uid cmd).2.last_access = s.last_access
    ∧ (∀ (name pass : String) (uid' : UserId),
        (s.login now name pass).1 = .ok uid' →
        (s.login now name pass).2.last_access = insertA s.last_access uid' now) := by
  refine ⟨⟨?_, ?_⟩, ?_, ?_⟩
  · intro h
    by_cases hl : ∃ t, lookupA s.last_access uid = some t
    · obtain ⟨t, ht⟩ := hl
      refine Or.inr ⟨t, ht, ?_⟩
      by_contra hngt
      unfold System.exec at h
      simp only [ht] at h
      rw [if_neg hngt] at h
      cases hearly : earlyReturn s cmd with
      | some e =>
        simp only [hearly] at h
        injection h with he
        exact absurd rfl (notAuth_early_return s cmd hearly auth_required_msg he)
      | none =>
        simp only [hearly] at h
        cases hd : (s.dispatch uid cmd).1 with
        | ok a =>
          simp only [hd] at h
          cases h
        | error e =>
          cases e with
          | panic pm =>
            simp only [hd] at h
            cases h
          | err m =>
            simp only [hd] at h
            injection h with he
            injection he with hs
            exact absurd hs (notAuth_dispatch s uid cmd m hd)
    · left
      cases hn : lookupA s.last_access uid with
      | none => rfl
      | some t => exact absurd ⟨t, hn⟩ hl
  · intro h
    rcases h with h | ⟨t, ht, hgt⟩
    · unfold System.exec
      simp only [h]
    · unfold System.exec
      simp only [ht]
      rw [if_pos hgt]
  · cases hn : lookupA s.last_access uid with
    | none =>
      unfold System.exec
      simp only [hn]
    | some t =>
      unfold System.exec
      simp only [hn]
      by_cases hgt : now - t > INACTIVITY_TIMEOUT
      · rw [if_pos hgt]
      · rw [if_neg hgt]
        cases hearly : earlyReturn s cmd with
        | some e => simp only [hearly]
        | none =>
          simp only [hearly]
          cases hd : (s.dispatch uid cmd).1 with
          | ok a => simp only [hd, dispatch_last_access]
          | error e =>
            cases e with
            | panic pm => simp only [hd, dispatch_last_access]
            | err m => simp only [hd, dispatch_last_access]
  · intro name pass uid' h
    exact login_stamps s now name pass uid' h

/-- Witness for C6 at concrete inputs: with a session stamped at instant 0,
an action at instant 61 is rejected as authentication-required (and one at
instant 60 is not); a fresh successful login stamps the session table. -/
theorem session_gate_exact_witness :
    ((c3sys.exec 61 0 (Action.ls [])).1 = .error (.err auth_required_msg) ↔
      (lookupA c3sys.last_access 0 = Option.none ∨
        ∃ t, lookupA c3sys.last_access 0 = some t ∧ 61 - t > INACTIVITY_TIMEOUT))
    ∧ ((System.new.login 5 "admin" "").2.last_access = insertA System.new.last_access 0 5) := by
  constructor
  · exact (session_gate_exact c3sys 61 0 (Action.ls [])).1
  · exact (session_gate_exact System.new 5 0 (Action.ls [])).2.2 "admin" "" 0 (by decide)

/-! ## Removal: the Conflict rule and the success path (claim C7) -/

theorem dir_lookup_ok_inv {d : Dir} {name : String} {id : NodeId}
    (h : d.lookup name = .ok id) : lookupA d.nodes name = some id := by
  unfold Dir.lookup at h
  cases hl : lookupA d.nodes name with
  | none => rw [hl] at h; cases h
  | some v => rw [hl] at h; injection h with hv; rw [hv]

theorem filter_nonself_nil (l : List (String × NodeId))
    (h : ∀ nm cid, (nm, cid) ∈ l → nm = "." ∨ nm = "..") :
    l.filter (fun e => e.1 != "." && e.1 != "..") = [] := by
  induction l with
  | nil => rfl
  | cons hd t ih =>
    obtain ⟨nm, cid⟩ := hd
    have hcond : (nm != "." && nm != "..") = false := by
      rcases h nm cid (List.mem_cons_self _ _) with h1 | h1 <;> simp [h1]
    rw [List.filter_cons]
    simp only [hcond, Bool.false_eq_true, if_false, ite_false]
    exact ih (fun nm' cid' hm => h nm' cid' (List.mem_cons_of_mem _ hm))

/-- `rm_recursive` on a node that is a file or a self-only directory removes
exactly that node from the arena. -/
theorem rm_recursive_self_only (fs : Fs) (id : NodeId) (n : Node)
    (hl : lookupA fs.nodes id = some n)
    (hk : (∃ f, n.kind = .file f) ∨
      ∃ td, n.kind = .dir td ∧ ∀ nm cid, (nm, cid) ∈ td.nodes → nm = "." ∨ nm = "..") :
    fs.rm_recursive id = { fs with nodes := (removeA fs.nodes id).2 } := by
  have hfst : (removeA fs.nodes id).1 = some n := removeA_fst_of_lookupA hl
  unfold Fs.rm_recursive
  unfold rmRecWork
  split
  next heq =>
    rw [hfst] at heq
    cases heq
  next node heq =>
    have hn : node = n := by
      rw [hfst] at heq
      injection heq with h2
      exact h2.symm
    subst hn
    rcases hk with ⟨f, hf⟩ | ⟨td, htd, hself⟩
    · simp only [hf]
      unfold rmRecWork
      rfl
    · simp only [htd, filter_nonself_nil td.nodes hself, List.map_nil, List.nil_append]
      unfold rmRecWork
      rfl

/-- C7: when removal reaches a directory that still holds a binding other
than `.`/`..`, it fails with the Conflict error and the node graph is left
unchanged; on the same path once the directory holds only its two self
bindings, removal succeeds, unbinds the name from the parent and frees the
target node. -/
theorem rm_conflict_and_success :
    (∀ (fs : Fs) (uid : UserId) (path : Path) (name : String) (parent : Node) (pd : Dir)
       (tid : NodeId) (t : Node) (td : Dir) (a b : NodeId),
      filename path = .ok name →
      fs.resolve_parent_of uid path = .ok parent →
      parent.as_dir = .ok pd →
      pd.lookup name = .ok tid →
      fs.get_node uid tid = .ok t →
      t.kind = .dir td →
      (".", a) ∈ td.nodes → ("..", b) ∈ td.nodes → (td.nodes.map Prod.fst).Nodup →
      (∃ nm cid, (nm, cid) ∈ td.nodes ∧ nm ≠ "." ∧ nm ≠ "..") →
      fs.rm uid path = .error (.err "can\x27t remove non-empty directory")
        ∧ (FsCmd.frm uid path).step fs = fs)
    ∧ (∀ (fs : Fs) (uid : UserId) (path : Path) (name : String) (parent : Node) (pd : Dir)
       (tid : NodeId) (t : Node) (td : Dir) (a b : NodeId),
      filename path = .ok name →
      fs.resolve_parent_of uid path = .ok parent →
      parent.as_dir = .ok pd →
      pd.lookup name = .ok tid →
      fs.get_node uid tid = .ok t →
      t.kind = .dir td →
      (".", a) ∈ td.nodes → ("..", b) ∈ td.nodes → (td.nodes.map Prod.fst).Nodup →
      (∀ nm cid, (nm, cid) ∈ td.nodes → nm = "." ∨ nm = "..") →
      fs.get_node_mut uid parent.id = .ok parent →
      tid ≠ parent.id →
      (fs.nodes.map Prod.fst).Nodup →
      (pd.nodes.map Prod.fst).Nodup →
      ∃ fs', fs.rm uid path = .ok fs'
        ∧ (∃ pn pdn, lookupA fs'.nodes parent.id = some pn ∧ pn.as_dir = .ok pdn ∧
            lookupA pdn.nodes name = Option.none)
        ∧ lookupA fs'.nodes tid = Option.none) := by
  constructor
  · intro fs uid path name parent pd tid t td a b hname hpar hpd hlook ht htd
      hdot hdotdot hndT hne
    have hemp : td.is_empty = false := by
      cases hE : td.is_empty with
      | false => rfl
      | true =>
        obtain ⟨nm, cid, hmem, hn1, hn2⟩ := hne
        rcases (dir_is_empty_iff td a b hdot hdotdot hndT).mp hE (nm, cid) hmem with h1 | h1
        · exact absurd h1 hn1
        · exact absurd h1 hn2
    have hrm : fs.rm uid path = .error (.err "can\x27t remove non-empty directory") := by
      unfold Fs.rm
      simp only [hname, hpar, hpd, hlook, ht, htd, hemp]
      rfl
    refine ⟨hrm, ?_⟩
    unfold FsCmd.step FsCmd.run
    simp only [hrm]
  · intro fs uid path name parent pd tid t td a b hname hpar hpd hlook ht htd
      hdot hdotdot hndT hself hmut htidne hndA hndP
    have hemp : td.is_empty = true :=
      (dir_is_empty_iff td a b hdot hdotdot hndT).mpr
        (fun p hp => by obtain ⟨x, y⟩ := p; exact hself x y hp)
    have hlookA : lookupA pd.nodes name = some tid := dir_lookup_ok_inv hlook
    have hrm1 : (pd.rm name).1 = some tid := by
      unfold Dir.rm
      exact removeA_fst_of_lookupA hlookA
    have htA : lookupA fs.nodes tid = some t := ((get_node_ok_iff fs uid tid t).mp ht).1
    have hpA : lookupA fs.nodes parent.id = some parent :=
      ((get_node_mut_ok_iff fs uid parent.id parent).mp hmut).1
    set parent' : Node := { parent with kind := .dir (pd.rm name).2 } with hparent'
    set fs1 : Fs := { fs with nodes := updateA fs.nodes parent.id parent' } with hfs1
    have ht1 : lookupA fs1.nodes tid = some t := by
      rw [hfs1]
      show lookupA (updateA fs.nodes parent.id parent') tid = some t
      rw [lookupA_updateA_ne _ _ htidne]
      exact htA
    have hrec : fs1.rm_recursive tid = { fs1 with nodes := (removeA fs1.nodes tid).2 } :=
      rm_recursive_self_only fs1 tid t ht1 (Or.inr ⟨td, htd, hself⟩)
    have hrm : fs.rm uid path = .ok (fs1.rm_recursive tid) := by
      unfold Fs.rm
      simp only [hname, hpar, hpd, hlook, ht, htd, hemp, hmut, hrm1]
      rfl
    refine ⟨fs1.rm_recursive tid, hrm, ?_, ?_⟩
    · refine ⟨parent', (pd.rm name).2, ?_, ?_, ?_⟩
      · rw [hrec]
        show lookupA (removeA fs1.nodes tid).2 parent.id = some parent'
        rw [lookupA_removeA_ne _ (fun h => htidne h.symm)]
        rw [hfs1]
        show lookupA (updateA fs.nodes parent.id parent') parent.id = some parent'
        exact lookupA_updateA_self parent' hpA
      · rfl
      · show lookupA (removeA pd.nodes name).2 name = Option.none
        exact lookupA_removeA_self hndP
    · rw [hrec]
      show lookupA (removeA fs1.nodes tid).2 tid = Option.none
      apply lookupA_removeA_self
      rw [hfs1]
      show ((updateA fs.nodes parent.id parent').map Prod.fst).Nodup
      rw [map_fst_updateA]
      exact hndA

/-- Witness for C7 at concrete inputs: removing `/docs` while it still holds
`readme` fails with the Conflict error and leaves the store unchanged;
removing the empty `/d` succeeds, unbinds `d` from the root and frees node
1. -/
theorem rm_conflict_and_success_witness :
    (c1fs.rm 0 ["docs"] = .error (.err "can\x27t remove non-empty directory")
      ∧ (FsCmd.frm 0 ["docs"]).step c1fs = c1fs)
    ∧ ∃ fs', c2fs.rm 0 ["d"] = .ok fs'
        ∧ (∃ pn pdn, lookupA fs'.nodes 0 = some pn ∧ pn.as_dir = .ok pdn ∧
            lookupA pdn.nodes "d" = Option.none)
        ∧ lookupA fs'.nodes 1 = Option.none := by
  constructor
  · exact rm_conflict_and_success.1 c1fs 0 ["docs"] "docs"
      (⟨0, NodeKind.dir ⟨[(".", 0), ("..", 0), ("docs", 1)]⟩, AccessMap.empty⟩ : Node)
      (⟨[(".", 0), ("..", 0), ("docs", 1)]⟩ : Dir) 1
      (⟨1, NodeKind.dir ⟨[(".", 1), ("..", 0), ("readme", 2)]⟩, AccessMap.empty⟩ : Node)
      (⟨[(".", 1), ("..", 0), ("readme", 2)]⟩ : Dir) 1 0
      (by decide) (by decide) (by decide) (by decide) (by decide) rfl
      (by decide) (by decide) (by decide)
      ⟨"readme", 2, by decide, by decide, by decide⟩
  · exact rm_conflict_and_success.2 c2fs 0 ["d"] "d"
      (⟨0, NodeKind.dir ⟨[(".", 0), ("..", 0), ("d", 1)]⟩, AccessMap.empty⟩ : Node)
      (⟨[(".", 0), ("..", 0), ("d", 1)]⟩ : Dir) 1
      (⟨1, NodeKind.dir ⟨[(".", 1), ("..", 0)]⟩, AccessMap.empty⟩ : Node)
      (⟨[(".", 1), ("..", 0)]⟩ : Dir) 1 0
      (by decide) (by decide) (by decide) (by decide) (by decide) rfl
      (by decide) (by decide) (by decide)
      (by
        intro nm cid hm
        rcases List.mem_cons.mp hm with h1 | hm
        · exact Or.inl (congrArg Prod.fst h1)
        rcases List.mem_cons.mp hm with h1 | hm
        · exact Or.inr (congrArg Prod.fst h1)
        · cases hm)
      (by decide) (by decide) (by decide) (by decide)

/-! ## Dangling-reference freedom and panic-freedom (claim C9)

The invariant `Inv` strengthens the spec's dangling-reference freedom with
the bookkeeping facts needed to push it through every operation: id/key
consistency, counter freshness, key uniqueness, the two self bindings of
every directory, liveness of every binding (self bindings included), the
parent back-reference of `..`, uniqueness of non-self references, and the
fact that no non-self binding names the root. -/

theorem lookupA_some_of_mem_keys {α β : Type} [DecidableEq α]
    {l : List (α × β)} {key : α} (h : key ∈ l.map Prod.fst) :
    ∃ v, lookupA l key = some v := by
  induction l with
  | nil => simp at h
  | cons hd t ih =>
    obtain ⟨k, v⟩ := hd
    by_cases hk : k = key
    · exact ⟨v, by simp [lookupA, hk]⟩
    · simp only [List.map_cons, List.mem_cons] at h
      rcases h with h | h
      · exact absurd h.symm hk
      · simpa [lookupA, hk] using ih h

theorem mem_keys_of_lookupA {α β : Type} [DecidableEq α]
    {l : List (α × β)} {key : α} {v : β} (h : lookupA l key = some v) :
    key ∈ l.map Prod.fst :=
  List.mem_map_of_mem Prod.fst (mem_of_lookupA h)

theorem not_mem_keys_of_lookupA_none {α β : Type} [DecidableEq α]
    {l : List (α × β)} {key : α} (h : lookupA l key = none) :
    key ∉ l.map Prod.fst := by
  intro hm
  obtain ⟨v, hv⟩ := lookupA_some_of_mem_keys hm
  rw [h] at hv
  cases hv

theorem lookupA_none_of_containsA_false {α β : Type} [DecidableEq α]
    {l : List (α × β)} {key : α} (h : containsA l key = false) :
    lookupA l key = none := by
  cases hl : lookupA l key with
  | none => rfl
  | some v =>
    rw [containsA_of_lookupA hl] at h
    cases h

theorem mem_removeA_of_ne {α β : Type} [DecidableEq α]
    {l : List (α × β)} {key : α} {x : α × β} (hx : x ∈ l) (hne : x.1 ≠ key) :
    x ∈ (removeA l key).2 := by
  induction l with
  | nil => cases hx
  | cons hd t ih =>
    obtain ⟨k, v⟩ := hd
    by_cases hk : k = key
    · simp only [removeA, if_pos hk]
      rcases List.mem_cons.mp hx with h1 | h1
      · exact absurd (hk ▸ congrArg Prod.fst h1) hne
      · exact h1
    · simp only [removeA, if_neg hk, List.mem_cons]
      rcases List.mem_cons.mp hx with h1 | h1
      · exact Or.inl h1
      · exact Or.inr (ih h1)

theorem keys_removeA_subset {α β : Type} [DecidableEq α]
    {l : List (α × β)} {key : α} {x : α} (h : x ∈ ((removeA l key).2).map Prod.fst) :
    x ∈ l.map Prod.fst := by
  obtain ⟨p, hp, rfl⟩ := List.mem_map.mp h
  exact List.mem_map_of_mem Prod.fst (mem_of_mem_removeA hp)

theorem nodup_keys_removeA {α β : Type} [DecidableEq α]
    {l : List (α × β)} (key : α) (h : (l.map Prod.fst).Nodup) :
    (((removeA l key).2).map Prod.fst).Nodup := by
  induction l with
  | nil => exact List.nodup_nil
  | cons hd t ih =>
    obtain ⟨k, v⟩ := hd
    simp only [List.map_cons, List.nodup_cons] at h
    by_cases hk : k = key
    · simp only [removeA, if_pos hk]
      exact h.2
    · simp only [removeA, if_neg hk, List.map_cons, List.nodup_cons]
      exact ⟨fun hm => h.1 (keys_removeA_subset hm), ih h.2⟩

theorem lookupA_singleton {α β : Type} [DecidableEq α]
    {k : α} {v : β} {i : α} {n : β} (h : lookupA [(k, v)] i = some n) :
    i = k ∧ n = v := by
  by_cases hk : k = i
  · simp only [lookupA, if_pos hk] at h
    injection h with hv
    exact ⟨hk.symm, hv.symm⟩
  · simp only [lookupA, if_neg hk] at h
    cases h

theorem as_dir_ok_inv {n : Node} {d : Dir} (h : n.as_dir = .ok d) :
    n.kind = .dir d := by
  unfold Node.as_dir at h
  cases hk : n.kind with
  | file f => rw [hk] at h; cases h
  | dir d0 => rw [hk] at h; injection h with hd; rw [hd]

theorem as_file_ok_inv {n : Node} {f : File} (h : n.as_file = .ok f) :
    n.kind = .file f := by
  unfold Node.as_file at h
  cases hk : n.kind with
  | dir d => rw [hk] at h; cases h
  | file f0 => rw [hk] at h; injection h with hf; rw [hf]

theorem filename_ok_nonself {path : Path} {name : String}
    (h : filename path = .ok name) : name ≠ "." ∧ name ≠ ".." := by
  unfold filename at h
  cases hl : path.getLast? with
  | none => rw [hl] at h; cases h
  | some n =>
    rw [hl] at h
    dsimp only at h
    by_cases hn : n = "." ∨ n = ".."
    · rw [if_pos hn] at h
      cases h
    · rw [if_neg hn] at h
      injection h with he
      push_neg at hn
      rw [← he]
      exact hn

/-- The strengthened dangling-freedom invariant of the arena. -/
structure Inv (fs : Fs) : Prop where
  root_dir : ∃ n d, lookupA fs.nodes ROOT_ID = some n ∧ n.kind = .dir d
  idc : ∀ i n, lookupA fs.nodes i = some n → n.id = i
  bound : ∀ i n, lookupA fs.nodes i = some n → i < fs.node_counter
  akeys : (fs.nodes.map Prod.fst).Nodup
  dkeys : ∀ i n d, lookupA fs.nodes i = some n → n.kind = .dir d →
    (d.nodes.map Prod.fst).Nodup
  dot : ∀ i n d, lookupA fs.nodes i = some n → n.kind = .dir d → (".", i) ∈ d.nodes
  dotdot : ∀ i n d, lookupA fs.nodes i = some n → n.kind = .dir d →
    ∃ p pn pd, ("..", p) ∈ d.nodes ∧ lookupA fs.nodes p = some pn ∧ pn.kind = .dir pd ∧
      ((i = ROOT_ID ∧ p = ROOT_ID) ∨
        (i ≠ ROOT_ID ∧ ∃ nm, nm ≠ "." ∧ nm ≠ ".." ∧ (nm, i) ∈ pd.nodes))
  live : ∀ i n d name cid, lookupA fs.nodes i = some n → n.kind = .dir d →
    (name, cid) ∈ d.nodes → ∃ m, lookupA fs.nodes cid = some m
  uniq : ∀ i n d name cid i' n' d' name' cid',
    lookupA fs.nodes i = some n → n.kind = .dir d → (name, cid) ∈ d.nodes →
    name ≠ "." → name ≠ ".." →
    lookupA fs.nodes i' = some n' → n'.kind = .dir d' → (name', cid') ∈ d'.nodes →
    name' ≠ "." → name' ≠ ".." → cid = cid' → i = i' ∧ name = name'
  ns_root : ∀ i n d name cid, lookupA fs.nodes i = some n → n.kind = .dir d →
    (name, cid) ∈ d.nodes → name ≠ "." → name ≠ ".." → cid ≠ ROOT_ID

/-- The invariant implies the spec's dangling-freedom statement. -/
theorem liveEntries_of_inv {fs : Fs} (h : Inv fs) : liveEntries fs :=
  fun i n d name cid hl hk hm _ _ => h.live i n d name cid hl hk hm

/-- The fresh store satisfies the invariant. -/
theorem inv_new : Inv Fs.new := by
  have hroot : ∀ {i : NodeId} {n : Node}, lookupA Fs.new.nodes i = some n →
      i = ROOT_ID ∧ n = Node.new_dir ROOT_ID ROOT_ID := fun h => lookupA_singleton h
  refine ⟨⟨Node.new_dir ROOT_ID ROOT_ID, Dir.new ROOT_ID ROOT_ID, rfl, rfl⟩,
    ?_, ?_, ?_, ?_, ?_, ?_, ?_, ?_, ?_⟩
  · intro i n h
    obtain ⟨rfl, rfl⟩ := hroot h
    rfl
  · intro i n h
    obtain ⟨rfl, rfl⟩ := hroot h
    exact Nat.zero_lt_one
  · exact List.nodup_singleton _
  · intro i n d h hk
    obtain ⟨rfl, rfl⟩ := hroot h
    injection hk with hd
    rw [← hd]
    decide
  · intro i n d h hk
    obtain ⟨rfl, rfl⟩ := hroot h
    injection hk with hd
    rw [← hd]
    decide
  · intro i n d h hk
    obtain ⟨rfl, rfl⟩ := hroot h
    injection hk with hd
    refine ⟨ROOT_ID, Node.new_dir ROOT_ID ROOT_ID, Dir.new ROOT_ID ROOT_ID, ?_, rfl, rfl,
      Or.inl ⟨rfl, rfl⟩⟩
    rw [← hd]
    decide
  · intro i n d name cid h hk hm
    obtain ⟨rfl, rfl⟩ := hroot h
    injection hk with hd
    rw [← hd] at hm
    refine ⟨Node.new_dir ROOT_ID ROOT_ID, ?_⟩
    rcases List.mem_cons.mp hm with h1 | hm
    · rw [show cid = ROOT_ID from congrArg Prod.snd h1]
      rfl
    rcases List.mem_cons.mp hm with h1 | hm
    · rw [show cid = ROOT_ID from congrArg Prod.snd h1]
      rfl
    · cases hm
  · intro i n d name cid i' n' d' name' cid' h hk hm hn1 hn2
    obtain ⟨rfl, rfl⟩ := hroot h
    injection hk with hd
    rw [← hd] at hm
    rcases List.mem_cons.mp hm with h1 | hm
    · exact absurd (congrArg Prod.fst h1) hn1
    rcases List.mem_cons.mp hm with h1 | hm
    · exact absurd (congrArg Prod.fst h1) hn2
    · cases hm
  · intro i n d name cid h hk hm hn1 hn2
    obtain ⟨rfl, rfl⟩ := hroot h
    injection hk with hd
    rw [← hd] at hm
    rcases List.mem_cons.mp hm with h1 | hm
    · exact absurd (congrArg Prod.fst h1) hn1
    rcases List.mem_cons.mp hm with h1 | hm
    · exact absurd (congrArg Prod.fst h1) hn2
    · cases hm

/-- A node handed out by the store is the arena's node under its own id. -/
def InArena (fs : Fs) (n : Node) : Prop := lookupA fs.nodes n.id = some n

/-- The result of an operation is not a modelled Rust panic. -/
def NoPanic {α : Type} (r : Except Err α) : Prop := ∀ m, r ≠ .error (.panic m)

theorem noPanic_ok {α : Type} (a : α) : NoPanic (Except.ok a) := by
  intro m hm
  cases hm

theorem noPanic_err {α : Type} (m0 : String) :
    NoPanic (Except.error (Err.err m0) : Except Err α) := by
  intro m hm
  cases hm

theorem noPanic_error_resolve {α β : Type} {x : Except Err α} (h : NoPanic x)
    {e : Err} (hx : x = .error e) : NoPanic (Except.error e : Except Err β) := by
  intro m hm
  injection hm with he
  exact h m (by rw [hx, he])

theorem noPanic_of_eq {α : Type} {x y : Except Err α} (h : NoPanic x) (hxy : y = x) :
    NoPanic y := by
  rw [hxy]
  exact h

theorem noPanic_map {α β : Type} {x : Except Err α} (f : α → β) (h : NoPanic x) :
    NoPanic (x.map f) := by
  cases hx : x with
  | ok a => exact noPanic_ok _
  | error e => exact noPanic_error_resolve h hx

theorem get_node_no_panic {fs : Fs} (uid : UserId) {id : NodeId} {m : Node}
    (h : lookupA fs.nodes id = some m) : NoPanic (fs.get_node uid id) :=
  fun pm hp => get_node_not_panic fs uid id h pm hp

theorem get_node_mut_no_panic {fs : Fs} (uid : UserId) {id : NodeId} {m : Node}
    (h : lookupA fs.nodes id = some m) : NoPanic (fs.get_node_mut uid id) :=
  fun pm hp => get_node_mut_not_panic fs uid id h pm hp

theorem get_node_ok_arena {fs : Fs} (hidc : ∀ i n, lookupA fs.nodes i = some n → n.id = i)
    {uid : UserId} {id : NodeId} {n : Node} (h : fs.get_node uid id = .ok n) :
    InArena fs n := by
  obtain ⟨hl, _⟩ := (get_node_ok_iff fs uid id n).mp h
  unfold InArena
  rw [hidc id n hl]
  exact hl

theorem get_node_mut_ok_arena {fs : Fs}
    (hidc : ∀ i n, lookupA fs.nodes i = some n → n.id = i)
    {uid : UserId} {id : NodeId} {n : Node} (h : fs.get_node_mut uid id = .ok n) :
    InArena fs n := by
  obtain ⟨hl, _⟩ := (get_node_mut_ok_iff fs uid id n).mp h
  unfold InArena
  rw [hidc id n hl]
  exact hl

theorem noPanic_as_dir (n : Node) : NoPanic n.as_dir := by
  unfold Node.as_dir
  cases n.kind with
  | file f => exact noPanic_err _
  | dir d => exact noPanic_ok _

theorem noPanic_as_file (n : Node) : NoPanic n.as_file := by
  unfold Node.as_file
  cases n.kind with
  | file f => exact noPanic_ok _
  | dir d => exact noPanic_err _

theorem noPanic_check (n : Node) (uid : UserId) (ops : List Op) :
    NoPanic (n.check_if_allowed uid ops) := by
  unfold Node.check_if_allowed
  cases ha : n.perms.allows uid ops with
  | true => exact noPanic_ok _
  | false => exact noPanic_err _

theorem noPanic_dir_lookup (d : Dir) (name : String) : NoPanic (d.lookup name) := by
  unfold Dir.lookup
  cases lookupA d.nodes name with
  | none => exact noPanic_err _
  | some id => exact noPanic_ok _

theorem noPanic_filename (path : Path) : NoPanic (filename path) := by
  unfold filename
  cases path.getLast? with
  | none => exact noPanic_err _
  | some n =>
    dsimp only
    by_cases h : n = "." ∨ n = ".."
    · rw [if_pos h]
      exact noPanic_err _
    · rw [if_neg h]
      exact noPanic_ok _

theorem fs_lookup_spec {fs : Fs} (hinv : Inv fs) (uid : UserId) {pid : NodeId} {p : Node}
    (hp : lookupA fs.nodes pid = some p) (name : String) :
    NoPanic (fs.lookup uid pid name) ∧
      ∀ n, fs.lookup uid pid name = .ok n → InArena fs n := by
  unfold Fs.lookup
  cases hg : fs.get_node uid pid with
  | error e =>
    refine ⟨noPanic_error_resolve (get_node_no_panic uid hp) hg, ?_⟩
    intro n hn
    cases hn
  | ok p2 =>
    have hp2 : lookupA fs.nodes pid = some p2 := ((get_node_ok_iff fs uid pid p2).mp hg).1
    dsimp only
    cases hd : p2.as_dir with
    | error e =>
      refine ⟨noPanic_error_resolve (noPanic_as_dir p2) hd, ?_⟩
      intro n hn
      cases hn
    | ok dir =>
      dsimp only
      cases hl : dir.lookup name with
      | error e =>
        refine ⟨noPanic_error_resolve (noPanic_dir_lookup dir name) hl, ?_⟩
        intro n hn
        cases hn
      | ok cid =>
        have hmem : (name, cid) ∈ dir.nodes := mem_of_lookupA (dir_lookup_ok_inv hl)
        obtain ⟨m, hm⟩ := hinv.live pid p2 dir name cid hp2 (as_dir_ok_inv hd) hmem
        exact ⟨get_node_no_panic uid hm,
          fun n hn => get_node_ok_arena hinv.idc hn⟩

theorem reduce_segments_spec {α : Type} (P : α → Prop) (f : α → String → Except Err α)
    (hf : ∀ a name, P a → NoPanic (f a name) ∧ ∀ b, f a name = .ok b → P b) :
    ∀ (path : Path) (start : α), P start →
      NoPanic (reduce_segments path start f) ∧
        ∀ b, reduce_segments path start f = .ok b → P b := by
  intro path
  induction path with
  | nil =>
    intro start hP
    refine ⟨noPanic_ok _, ?_⟩
    intro b hb
    injection hb with he
    rw [← he]
    exact hP
  | cons name rest ih =>
    intro start hP
    unfold reduce_segments
    cases hc : f start name with
    | error e =>
      refine ⟨noPanic_error_resolve (hf start name hP).1 hc, ?_⟩
      intro b hb
      cases hb
    | ok next => exact ih next ((hf start name hP).2 next hc)

theorem resolve_path_spec {fs : Fs} (hinv : Inv fs) (uid : UserId) (path : Path) :
    NoPanic (fs.resolve_path uid path) ∧
      ∀ n, fs.resolve_path uid path = .ok n → InArena fs n := by
  obtain ⟨rn, rd, hroot, hrk⟩ := hinv.root_dir
  unfold Fs.resolve_path
  cases hg : fs.get_node uid ROOT_ID with
  | error e =>
    refine ⟨noPanic_error_resolve (get_node_no_panic uid hroot) hg, ?_⟩
    intro n hn
    cases hn
  | ok root =>
    exact reduce_segments_spec (InArena fs) _
      (fun a name ha => fs_lookup_spec hinv uid ha name) path root
      (get_node_ok_arena hinv.idc hg)

theorem resolve_path_mut_spec {fs : Fs} (hinv : Inv fs) (uid : UserId) (path : Path) :
    NoPanic (fs.resolve_path_mut uid path) ∧
      ∀ n, fs.resolve_path_mut uid path = .ok n → InArena fs n := by
  unfold Fs.resolve_path_mut
  cases hg : fs.resolve_path uid path with
  | error e =>
    refine ⟨noPanic_error_resolve (resolve_path_spec hinv uid path).1 hg, ?_⟩
    intro n hn
    cases hn
  | ok n0 =>
    have h0 : InArena fs n0 := (resolve_path_spec hinv uid path).2 n0 hg
    exact ⟨get_node_mut_no_panic uid h0, fun n hn => get_node_mut_ok_arena hinv.idc hn⟩

theorem lsEntries_no_panic {fs : Fs} (uid : UserId) {l : List (String × NodeId)}
    (hl : ∀ p ∈ l, ∃ m, lookupA fs.nodes p.2 = some m) :
    NoPanic (lsEntries fs uid l) := by
  obtain ⟨es, hes, _⟩ := lsEntries_ok fs uid l hl
  rw [hes]
  exact noPanic_ok _

/-- No public node-store operation, run on a store satisfying the invariant,
ever reaches a panic site. -/
theorem run_no_panic {fs : Fs} (hinv : Inv fs) (c : FsCmd) : NoPanic (c.run fs) := by
  cases c with
  | fread uid p =>
    refine noPanic_map _ ?_
    unfold Fs.read
    cases hg : fs.resolve_path uid p with
    | error e => exact noPanic_error_resolve (resolve_path_spec hinv uid p).1 hg
    | ok n =>
      dsimp only
      cases hf : n.as_file with
      | error e => exact noPanic_error_resolve (noPanic_as_file n) hf
      | ok f => exact noPanic_ok _
  | fwrite uid p data =>
    show NoPanic (fs.write uid p data)
    unfold Fs.write
    cases hg : fs.resolve_path_mut uid p with
    | error e => exact noPanic_error_resolve (resolve_path_mut_spec hinv uid p).1 hg
    | ok n =>
      dsimp only
      cases hf : n.as_file with
      | error e => exact noPanic_error_resolve (noPanic_as_file n) hf
      | ok f => exact noPanic_ok _
  | frm uid p =>
    show NoPanic (fs.rm uid p)
    unfold Fs.rm
    cases hn : filename p with
    | error e => exact noPanic_error_resolve (noPanic_filename p) hn
    | ok name =>
      dsimp only
      cases hp : fs.resolve_parent_of uid p with
      | error e =>
        exact noPanic_error_resolve (resolve_path_spec hinv uid (parentPath p)).1 hp
      | ok parent =>
        have hpar : InArena fs parent := (resolve_path_spec hinv uid (parentPath p)).2 parent hp
        dsimp only
        cases hd : parent.as_dir with
        | error e => exact noPanic_error_resolve (noPanic_as_dir parent) hd
        | ok pd =>
          dsimp only
          cases hl : pd.lookup name with
          | error e => exact noPanic_error_resolve (noPanic_dir_lookup pd name) hl
          | ok tid =>
            have hmem : (name, tid) ∈ pd.nodes := mem_of_lookupA (dir_lookup_ok_inv hl)
            obtain ⟨tm, htm⟩ :=
              hinv.live parent.id parent pd name tid hpar (as_dir_ok_inv hd) hmem
            dsimp only
            cases hg : fs.get_node uid tid with
            | error e => exact noPanic_error_resolve (get_node_no_panic uid htm) hg
            | ok node =>
              dsimp only
              by_cases hne : (match node.kind with
                  | .dir d => !d.is_empty
                  | .file _ => false) = true
              · rw [if_pos hne]
                exact noPanic_err _
              · rw [if_neg hne]
                cases hm : fs.get_node_mut uid parent.id with
                | error e => exact noPanic_error_resolve (get_node_mut_no_panic uid hpar) hm
                | ok parent2 =>
                  have hp2 : parent2 = parent := by
                    have := ((get_node_mut_ok_iff fs uid parent.id parent2).mp hm).1
                    rw [hpar] at this
                    injection this with h2
                    exact h2.symm
                  dsimp only
                  cases hd2 : parent2.as_dir with
                  | error e => exact noPanic_error_resolve (noPanic_as_dir parent2) hd2
                  | ok pd2 =>
                    have hpd2 : pd2 = pd := by
                      rw [hp2] at hd2
                      rw [hd] at hd2
                      injection hd2 with h2
                      exact h2.symm
                    dsimp only
                    cases hrm : (pd2.rm name).1 with
                    | none =>
                      rw [hpd2] at hrm
                      unfold Dir.rm at hrm
                      rw [removeA_fst_of_lookupA (dir_lookup_ok_inv hl)] at hrm
                      cases hrm
                    | some old => exact noPanic_ok _
  | fnew_file uid p =>
    show NoPanic (fs.new_file uid p)
    unfold Fs.new_file
    cases hp : fs.resolve_parent_of_mut uid p with
    | error e =>
      exact noPanic_error_resolve (resolve_path_mut_spec hinv uid (parentPath p)).1 hp
    | ok parent =>
      have hpar : InArena fs parent :=
        (resolve_path_mut_spec hinv uid (parentPath p)).2 parent hp
      dsimp only
      cases hn : filename p with
      | error e => exact noPanic_error_resolve (noPanic_filename p) hn
      | ok name =>
        dsimp only
        cases hc : fs.create uid parent.id name .file with
        | ok r => exact noPanic_ok _
        | error e =>
          refine noPanic_error_resolve (x := fs.create uid parent.id name .file) ?_ hc
          unfold Fs.create
          cases hm : fs.get_node_mut uid parent.id with
          | error e2 => exact noPanic_error_resolve (get_node_mut_no_panic uid hpar) hm
          | ok parent2 =>
            dsimp only
            cases hd : parent2.as_dir with
            | error e2 => exact noPanic_error_resolve (noPanic_as_dir parent2) hd
            | ok d =>
              dsimp only
              by_cases hcon : d.contains name = true
              · rw [if_pos hcon]
                exact noPanic_err _
              · rw [if_neg hcon]
                exact noPanic_ok _
  | fnew_dir uid p =>
    show NoPanic (fs.new_dir uid p)
    unfold Fs.new_dir
    cases hp : fs.resolve_parent_of_mut uid p with
    | error e =>
      exact noPanic_error_resolve (resolve_path_mut_spec hinv uid (parentPath p)).1 hp
    | ok parent =>
      have hpar : InArena fs parent :=
        (resolve_path_mut_spec hinv uid (parentPath p)).2 parent hp
      dsimp only
      cases hn : filename p with
      | error e => exact noPanic_error_resolve (noPanic_filename p) hn
      | ok name =>
        dsimp only
        cases hc : fs.create uid parent.id name .dir with
        | ok r => exact noPanic_ok _
        | error e =>
          refine noPanic_error_resolve (x := fs.create uid parent.id name .dir) ?_ hc
          unfold Fs.create
          cases hm : fs.get_node_mut uid parent.id with
          | error e2 => exact noPanic_error_resolve (get_node_mut_no_panic uid hpar) hm
          | ok parent2 =>
            dsimp only
            cases hd : parent2.as_dir with
            | error e2 => exact noPanic_error_resolve (noPanic_as_dir parent2) hd
            | ok d =>
              dsimp only
              by_cases hcon : d.contains name = true
              · rw [if_pos hcon]
                exact noPanic_err _
              · rw [if_neg hcon]
                exact noPanic_ok _
  | fexec uid p =>
    refine noPanic_map _ ?_
    unfold Fs.exec
    cases hg : fs.resolve_path uid p with
    | error e => exact noPanic_error_resolve (resolve_path_spec hinv uid p).1 hg
    | ok node => exact noPanic_check node uid _
  | fset_perms uid p perms =>
    show NoPanic (fs.set_perms uid p perms)
    unfold Fs.set_perms
    cases hg : fs.resolve_path_mut uid p with
    | error e => exact noPanic_error_resolve (resolve_path_mut_spec hinv uid p).1 hg
    | ok node =>
      dsimp only
      cases hc : node.check_if_allowed uid [Op.control] with
      | error e => exact noPanic_error_resolve (noPanic_check node uid _) hc
      | ok u => exact noPanic_ok _
  | fls uid p =>
    refine noPanic_map _ ?_
    unfold Fs.ls
    cases hg : fs.resolve_path uid p with
    | error e => exact noPanic_error_resolve (resolve_path_spec hinv uid p).1 hg
    | ok n =>
      have hn : InArena fs n := (resolve_path_spec hinv uid p).2 n hg
      dsimp only
      cases hd : n.as_dir with
      | error e => exact noPanic_error_resolve (noPanic_as_dir n) hd
      | ok dir =>
        exact lsEntries_no_panic uid
          (fun q hq => hinv.live n.id n dir q.1 q.2 hn (as_dir_ok_inv hd)
            (by obtain ⟨x, y⟩ := q; exact hq))

theorem lookupA_updateA_eq {α β : Type} [DecidableEq α] {l : List (α × β)} {k : α}
    {u : β} (v : β) (h : lookupA l k = some u) (i : α) :
    lookupA (updateA l k v) i = if i = k then some v else lookupA l i := by
  by_cases hik : i = k
  · rw [if_pos hik, hik]
    exact lookupA_updateA_self v h
  · rw [if_neg hik]
    exact lookupA_updateA_ne l v hik

/-- Replacing a node with one of the same id and the same directory content
(file writes, permission updates) preserves the invariant. -/
theorem inv_update_node {fs : Fs} (hinv : Inv fs) {n n' : Node}
    (harena : lookupA fs.nodes n.id = some n)
    (hid : n'.id = n.id)
    (hkind : ∀ d, n.kind = .dir d ↔ n'.kind = .dir d) :
    Inv { fs with nodes := updateA fs.nodes n.id n' } := by
  have hlk : ∀ i, lookupA (updateA fs.nodes n.id n') i =
      if i = n.id then some n' else lookupA fs.nodes i := lookupA_updateA_eq n' harena
  have hDom : ∀ i, (∃ m, lookupA (updateA fs.nodes n.id n') i = some m) ↔
      (∃ m, lookupA fs.nodes i = some m) := by
    intro i
    rw [hlk i]
    by_cases hik : i = n.id
    · rw [if_pos hik, hik]
      exact ⟨fun _ => ⟨n, harena⟩, fun _ => ⟨n', rfl⟩⟩
    · rw [if_neg hik]
  have hDirAt : ∀ i d, (∃ m, lookupA (updateA fs.nodes n.id n') i = some m ∧ m.kind = .dir d)
      ↔ (∃ m, lookupA fs.nodes i = some m ∧ m.kind = .dir d) := by
    intro i d
    rw [hlk i]
    by_cases hik : i = n.id
    · rw [if_pos hik, hik]
      constructor
      · rintro ⟨m, hm, hk⟩
        injection hm with hm
        exact ⟨n, harena, (hkind d).mpr (hm ▸ hk)⟩
      · rintro ⟨m, hm, hk⟩
        rw [harena] at hm
        injection hm with hm
        exact ⟨n', rfl, (hkind d).mp (hm ▸ hk)⟩
    · rw [if_neg hik]
  refine ⟨?_, ?_, ?_, ?_, ?_, ?_, ?_, ?_, ?_, ?_⟩
  · obtain ⟨m, d, hm, hk⟩ := hinv.root_dir
    obtain ⟨m', hm', hk'⟩ := (hDirAt ROOT_ID d).mpr ⟨m, hm, hk⟩
    exact ⟨m', d, hm', hk'⟩
  · intro i m hm
    rw [hlk i] at hm
    by_cases hik : i = n.id
    · rw [if_pos hik] at hm
      injection hm with hm
      rw [← hm, hid, hik]
    · rw [if_neg hik] at hm
      exact hinv.idc i m hm
  · intro i m hm
    show i < fs.node_counter
    obtain ⟨m0, hm0⟩ := (hDom i).mp ⟨m, hm⟩
    exact hinv.bound i m0 hm0
  · show ((updateA fs.nodes n.id n').map Prod.fst).Nodup
    rw [map_fst_updateA]
    exact hinv.akeys
  · intro i m d hm hk
    obtain ⟨m0, hm0, hk0⟩ := (hDirAt i d).mp ⟨m, hm, hk⟩
    exact hinv.dkeys i m0 d hm0 hk0
  · intro i m d hm hk
    obtain ⟨m0, hm0, hk0⟩ := (hDirAt i d).mp ⟨m, hm, hk⟩
    exact hinv.dot i m0 d hm0 hk0
  · intro i m d hm hk
    obtain ⟨m0, hm0, hk0⟩ := (hDirAt i d).mp ⟨m, hm, hk⟩
    obtain ⟨p, pn, pd, hpe, hpl, hpk, hrest⟩ := hinv.dotdot i m0 d hm0 hk0
    obtain ⟨pn', hpl', hpk'⟩ := (hDirAt p pd).mpr ⟨pn, hpl, hpk⟩
    exact ⟨p, pn', pd, hpe, hpl', hpk', hrest⟩
  · intro i m d name cid hm hk hmem
    obtain ⟨m0, hm0, hk0⟩ := (hDirAt i d).mp ⟨m, hm, hk⟩
    exact (hDom cid).mpr (hinv.live i m0 d name cid hm0 hk0 hmem)
  · intro i m d name cid i' m' d' name' cid' hm hk hmem h1 h2 hm' hk' hmem' h1' h2' hcc
    obtain ⟨m0, hm0, hk0⟩ := (hDirAt i d).mp ⟨m, hm, hk⟩
    obtain ⟨m0', hm0', hk0'⟩ := (hDirAt i' d').mp ⟨m', hm', hk'⟩
    exact hinv.uniq i m0 d name cid i' m0' d' name' cid' hm0 hk0 hmem h1 h2 hm0' hk0'
      hmem' h1' h2' hcc
  · intro i m d name cid hm hk hmem h1 h2
    obtain ⟨m0, hm0, hk0⟩ := (hDirAt i d).mp ⟨m, hm, hk⟩
    exact hinv.ns_root i m0 d name cid hm0 hk0 hmem h1 h2

theorem inv_write {fs fs' : Fs} (hinv : Inv fs) {uid : UserId} {p : Path} {data : String}
    (h : fs.write uid p data = .ok fs') : Inv fs' := by
  unfold Fs.write at h
  cases hg : fs.resolve_path_mut uid p with
  | error e => rw [hg] at h; cases h
  | ok n =>
    rw [hg] at h
    dsimp only at h
    cases hf : n.as_file with
    | error e => rw [hf] at h; cases h
    | ok f =>
      rw [hf] at h
      dsimp only at h
      injection h with he
      rw [← he]
      refine inv_update_node hinv ((resolve_path_mut_spec hinv uid p).2 n hg) rfl ?_
      intro d
      constructor
      · intro hd
        rw [as_file_ok_inv hf] at hd
        cases hd
      · intro hd
        cases hd

theorem inv_set_perms {fs fs' : Fs} (hinv : Inv fs) {uid : UserId} {p : Path}
    {perms : Perms} (h : fs.set_perms uid p perms = .ok fs') : Inv fs' := by
  unfold Fs.set_perms at h
  cases hg : fs.resolve_path_mut uid p with
  | error e => rw [hg] at h; cases h
  | ok node =>
    rw [hg] at h
    dsimp only at h
    cases hc : node.check_if_allowed uid [Op.control] with
    | error e => rw [hc] at h; cases h
    | ok u =>
      rw [hc] at h
      dsimp only at h
      injection h with he
      rw [← he]
      exact inv_update_node hinv ((resolve_path_mut_spec hinv uid p).2 node hg) rfl
        (fun d => Iff.rfl)

theorem inv_create {fs fs' : Fs} (hinv : Inv fs) {uid : UserId} {pid : NodeId}
    {name : String} {tag : NodeTag} {rid : NodeId}
    (h : fs.create uid pid name tag = .ok (rid, fs')) : Inv fs' := by
  unfold Fs.create at h
  cases hm : fs.get_node_mut uid pid with
  | error e => rw [hm] at h; cases h
  | ok parent =>
    rw [hm] at h
    dsimp only at h
    cases hd : parent.as_dir with
    | error e => rw [hd] at h; cases h
    | ok d =>
      rw [hd] at h
      dsimp only at h
      by_cases hcon : d.contains name = true
      · rw [if_pos hcon] at h
        cases h
      · rw [if_neg hcon] at h
        injection h with hpair
        cases hpair
        -- facts about the old store
        have hparena : lookupA fs.nodes pid = some parent :=
          ((get_node_mut_ok_iff fs uid pid parent).mp hm).1
        have hpid : parent.id = pid := hinv.idc pid parent hparena
        have hk : parent.kind = .dir d := as_dir_ok_inv hd
        have hconf : d.contains name = false := by
          cases hcv : d.contains name with
          | false => rfl
          | true => exact absurd hcv hcon
        have hfree : lookupA d.nodes name = none :=
          lookupA_none_of_containsA_false hconf
        have hnamedot : name ≠ "." := by
          intro he
          obtain ⟨v, hv⟩ := lookupA_some_of_mem_keys
            (List.mem_map_of_mem Prod.fst (hinv.dot pid parent d hparena hk))
          rw [he, hv] at hfree
          cases hfree
        have hnamedotdot : name ≠ ".." := by
          intro he
          obtain ⟨q, qn, qd, hqe, _, _, _⟩ := hinv.dotdot pid parent d hparena hk
          obtain ⟨v, hv⟩ := lookupA_some_of_mem_keys (List.mem_map_of_mem Prod.fst hqe)
          rw [he, hv] at hfree
          cases hfree
        set fid := fs.node_counter with hfid
        have hfresh : lookupA fs.nodes fid = none := by
          cases hl : lookupA fs.nodes fid with
          | none => rfl
          | some m => exact absurd (hinv.bound fid m hl) (lt_irrefl _)
        have hne_pid : fid ≠ pid :=
          fun he => absurd (hinv.bound pid parent hparena) (he ▸ lt_irrefl _)
        have hfid_pos : 0 < fid := by
          obtain ⟨rn, rd, hr, _⟩ := hinv.root_dir
          exact hinv.bound ROOT_ID rn hr
        have hfid_ne_root : fid ≠ ROOT_ID := Nat.pos_iff_ne_zero.mp hfid_pos
        set newNode := Node.new_with_tag fid pid tag with hnewNode
        set p' : Node := { parent with kind := .dir (d.add name fid) } with hp'
        have hnewid : newNode.id = fid := by cases tag <;> rfl
        have hadd : (d.add name fid).nodes = d.nodes ++ [(name, fid)] := by
          show insertA d.nodes name fid = _
          exact insertA_of_lookupA_none fid hfree
        set L' := insertA (updateA fs.nodes pid p') fid newNode with hL'
        have hupfresh : lookupA (updateA fs.nodes pid p') fid = none := by
          rw [lookupA_updateA_ne _ _ hne_pid]
          exact hfresh
        have happ : L' = updateA fs.nodes pid p' ++ [(fid, newNode)] :=
          insertA_of_lookupA_none newNode hupfresh
        have hlk : ∀ i, lookupA L' i =
            if i = fid then some newNode
            else if i = pid then some p' else lookupA fs.nodes i := by
          intro i
          by_cases hif : i = fid
          · rw [if_pos hif, hif, hL']
            exact lookupA_insertA_self _ _ _
          · rw [if_neg hif, hL', lookupA_insertA_ne _ _ hif]
            exact lookupA_updateA_eq p' hparena i
        have hNodeAt : ∀ {i : NodeId} {m : Node}, lookupA L' i = some m →
            (i = fid ∧ m = newNode) ∨ (i = pid ∧ m = p') ∨
              (i ≠ fid ∧ i ≠ pid ∧ lookupA fs.nodes i = some m) := by
          intro i m hm2
          rw [hlk i] at hm2
          by_cases hif : i = fid
          · rw [if_pos hif] at hm2
            injection hm2 with hm2
            exact Or.inl ⟨hif, hm2.symm⟩
          · rw [if_neg hif] at hm2
            by_cases hip : i = pid
            · rw [if_pos hip] at hm2
              injection hm2 with hm2
              exact Or.inr (Or.inl ⟨hip, hm2.symm⟩)
            · rw [if_neg hip] at hm2
              exact Or.inr (Or.inr ⟨hif, hip, hm2⟩)
        have hDomMono : ∀ {i : NodeId}, (∃ m, lookupA fs.nodes i = some m) →
            ∃ m, lookupA L' i = some m := by
          intro i hi
          obtain ⟨m, hm2⟩ := hi
          rw [hlk i]
          by_cases hif : i = fid
          · exact ⟨newNode, by rw [if_pos hif]⟩
          · rw [if_neg hif]
            by_cases hip : i = pid
            · exact ⟨p', by rw [if_pos hip]⟩
            · rw [if_neg hip]
              exact ⟨m, hm2⟩
        have hnewdirk : ∀ dd, newNode.kind = .dir dd → dd = Dir.new fid pid := by
          intro dd hdd
          cases tag with
          | file => cases hdd
          | dir =>
            injection hdd with hdd
            exact hdd.symm
        have hp'k : p'.kind = .dir (d.add name fid) := rfl
        have hmem_add : ∀ {x : String × NodeId}, x ∈ (d.add name fid).nodes ↔
            x ∈ d.nodes ∨ x = (name, fid) := by
          intro x
          rw [hadd, List.mem_append, List.mem_singleton]
        have hEntry : ∀ {i : NodeId} {m : Node} {dd : Dir} {name0 : String} {cid : NodeId},
            lookupA L' i = some m → m.kind = .dir dd → (name0, cid) ∈ dd.nodes →
            name0 ≠ "." → name0 ≠ ".." →
            (∃ m0 d0, lookupA fs.nodes i = some m0 ∧ m0.kind = .dir d0 ∧
              (name0, cid) ∈ d0.nodes) ∨ (i = pid ∧ name0 = name ∧ cid = fid) := by
          intro i m dd name0 cid hm2 hk2 hmem hn1 hn2
          rcases hNodeAt hm2 with ⟨hif, hmm⟩ | ⟨hip, hmm⟩ | ⟨hif, hip, hold⟩
          · rw [hmm] at hk2
            rw [hnewdirk dd hk2] at hmem
            rcases List.mem_cons.mp hmem with h1 | hmem
            · exact absurd (congrArg Prod.fst h1) hn1
            rcases List.mem_cons.mp hmem with h1 | hmem
            · exact absurd (congrArg Prod.fst h1) hn2
            · cases hmem
          · rw [hmm] at hk2
            rw [hp'k] at hk2
            injection hk2 with hk2
            rw [← hk2] at hmem
            rcases hmem_add.mp hmem with h1 | h1
            · rw [hip]
              exact Or.inl ⟨parent, d, hparena, hk, h1⟩
            · refine Or.inr ⟨hip, ?_, ?_⟩
              · exact congrArg Prod.fst h1
              · exact congrArg Prod.snd h1
          · exact Or.inl ⟨m, dd, hold, hk2, hmem⟩
        -- the ten clauses
        refine ⟨?_, ?_, ?_, ?_, ?_, ?_, ?_, ?_, ?_, ?_⟩
        · -- root_dir
          obtain ⟨rn, rd, hr, hrk⟩ := hinv.root_dir
          rw [show (ROOT_ID : NodeId) = 0 from rfl] at hr ⊢
          by_cases hrp : (0 : NodeId) = pid
          · refine ⟨p', d.add name fid, ?_, hp'k⟩
            rw [hlk 0, if_neg (fun he => hfid_ne_root he.symm), if_pos hrp]
          · refine ⟨rn, rd, ?_, hrk⟩
            rw [hlk 0, if_neg (fun he => hfid_ne_root he.symm), if_neg hrp]
            exact hr
        · -- idc
          intro i m hm2
          rcases hNodeAt hm2 with ⟨hif, hmm⟩ | ⟨hip, hmm⟩ | ⟨_, _, hold⟩
          · rw [hmm, hnewid, hif]
          · rw [hmm, hip]
            exact hpid
          · exact hinv.idc i m hold
        · -- bound
          intro i m hm2
          show i < fid + 1
          rcases hNodeAt hm2 with ⟨hif, _⟩ | ⟨hip, _⟩ | ⟨_, _, hold⟩
          · rw [hif]
            exact Nat.lt_succ_self _
          · rw [hip]
            exact Nat.lt_succ_of_lt (hinv.bound pid parent hparena)
          · exact Nat.lt_succ_of_lt (hinv.bound i m hold)
        · -- akeys
          show (L'.map Prod.fst).Nodup
          rw [happ, List.map_append, map_fst_updateA]
          show ((fs.nodes.map Prod.fst) ++ [fid]).Nodup
          rw [List.nodup_append]
          refine ⟨hinv.akeys, List.nodup_singleton _, ?_⟩
          intro a ha hb
          rw [List.mem_singleton] at hb
          subst hb
          exact absurd ha (not_mem_keys_of_lookupA_none hfresh)
        · -- dkeys
          intro i m dd hm2 hk2
          rcases hNodeAt hm2 with ⟨hif, hmm⟩ | ⟨hip, hmm⟩ | ⟨_, _, hold⟩
          · rw [hmm] at hk2
            rw [hnewdirk dd hk2]
            show (["." , ".."] : List String).Nodup
            decide
          · rw [hmm, hp'k] at hk2
            injection hk2 with hk2
            rw [← hk2, hadd, List.map_append]
            show ((d.nodes.map Prod.fst) ++ [name]).Nodup
            rw [List.nodup_append]
            refine ⟨hinv.dkeys pid parent d hparena hk, List.nodup_singleton _, ?_⟩
            intro a ha hb
            rw [List.mem_singleton] at hb
            subst hb
            exact absurd ha (not_mem_keys_of_lookupA_none hfree)
          · exact hinv.dkeys i m dd hold hk2
        · -- dot
          intro i m dd hm2 hk2
          rcases hNodeAt hm2 with ⟨hif, hmm⟩ | ⟨hip, hmm⟩ | ⟨_, _, hold⟩
          · rw [hmm] at hk2
            rw [hnewdirk dd hk2, hif]
            exact List.mem_cons_self _ _
          · rw [hmm, hp'k] at hk2
            injection hk2 with hk2
            rw [← hk2, hip]
            exact hmem_add.mpr (Or.inl (hinv.dot pid parent d hparena hk))
          · exact hinv.dot i m dd hold hk2
        · -- dotdot
          intro i m dd hm2 hk2
          rcases hNodeAt hm2 with ⟨hif, hmm⟩ | ⟨hip, hmm⟩ | ⟨hif, hip, hold⟩
          · rw [hmm] at hk2
            rw [hnewdirk dd hk2, hif]
            refine ⟨pid, p', d.add name fid, ?_, ?_, hp'k, ?_⟩
            · exact List.mem_cons_of_mem _ (List.mem_cons_self _ _)
            · rw [hlk pid, if_neg (fun he => hne_pid he.symm), if_pos rfl]
            · exact Or.inr ⟨hfid_ne_root, name, hnamedot, hnamedotdot,
                hmem_add.mpr (Or.inr rfl)⟩
          · rw [hmm, hp'k] at hk2
            injection hk2 with hk2
            rw [← hk2, hip]
            obtain ⟨q, qn, qd, hqe, hql, hqk, hcond⟩ := hinv.dotdot pid parent d hparena hk
            have hqnefid : q ≠ fid := by
              intro he
              rw [he, hfresh] at hql
              cases hql
            by_cases hqp : q = pid
            · have hqn : qn = parent := by
                rw [hqp, hparena] at hql
                injection hql with h2
                exact h2.symm
              have hqd : qd = d := by
                rw [hqn, hk] at hqk
                injection hqk with h2
                exact h2.symm
              refine ⟨q, p', d.add name fid, hmem_add.mpr (Or.inl hqe), ?_, hp'k, ?_⟩
              · rw [hlk q, if_neg hqnefid, if_pos hqp]
              · rcases hcond with hcl | ⟨hne, nm, hnm1, hnm2, hnmmem⟩
                · exact Or.inl hcl
                · exact Or.inr ⟨hne, nm, hnm1, hnm2,
                    hmem_add.mpr (Or.inl (hqd ▸ hnmmem))⟩
            · refine ⟨q, qn, qd, hmem_add.mpr (Or.inl hqe), ?_, hqk, ?_⟩
              · rw [hlk q, if_neg hqnefid, if_neg hqp]
                exact hql
              · rcases hcond with hcl | ⟨hne, nm, hnm1, hnm2, hnmmem⟩
                · exact Or.inl hcl
                · exact Or.inr ⟨hne, nm, hnm1, hnm2, hnmmem⟩
          · obtain ⟨q, qn, qd, hqe, hql, hqk, hcond⟩ := hinv.dotdot i m dd hold hk2
            have hqnefid : q ≠ fid := by
              intro he
              rw [he, hfresh] at hql
              cases hql
            by_cases hqp : q = pid
            · have hqn : qn = parent := by
                rw [hqp, hparena] at hql
                injection hql with h2
                exact h2.symm
              have hqd : qd = d := by
                rw [hqn, hk] at hqk
                injection hqk with h2
                exact h2.symm
              refine ⟨q, p', d.add name fid, hqe, ?_, hp'k, ?_⟩
              · rw [hlk q, if_neg hqnefid, if_pos hqp]
              · rcases hcond with hcl | ⟨hne, nm, hnm1, hnm2, hnmmem⟩
                · exact Or.inl hcl
                · exact Or.inr ⟨hne, nm, hnm1, hnm2,
                    hmem_add.mpr (Or.inl (hqd ▸ hnmmem))⟩
            · refine ⟨q, qn, qd, hqe, ?_, hqk, hcond⟩
              rw [hlk q, if_neg hqnefid, if_neg hqp]
              exact hql
        · -- live
          intro i m dd name0 cid hm2 hk2 hmem
          rcases hNodeAt hm2 with ⟨hif, hmm⟩ | ⟨hip, hmm⟩ | ⟨hif, hip, hold⟩
          · rw [hmm] at hk2
            rw [hnewdirk dd hk2] at hmem
            rcases List.mem_cons.mp hmem with h1 | hmem
            · refine ⟨newNode, ?_⟩
              rw [show cid = fid from congrArg Prod.snd h1, hlk fid, if_pos rfl]
            rcases List.mem_cons.mp hmem with h1 | hmem
            · refine ⟨p', ?_⟩
              rw [show cid = pid from congrArg Prod.snd h1, hlk pid,
                if_neg (fun he => hne_pid he.symm), if_pos rfl]
            · cases hmem
          · rw [hmm, hp'k] at hk2
            injection hk2 with hk2
            rw [← hk2] at hmem
            rcases hmem_add.mp hmem with h1 | h1
            · exact hDomMono (hinv.live pid parent d name0 cid hparena hk h1)
            · refine ⟨newNode, ?_⟩
              rw [show cid = fid from congrArg Prod.snd h1, hlk fid, if_pos rfl]
          · exact hDomMono (hinv.live i m dd name0 cid hold hk2 hmem)
        · -- uniq
          intro i m dd name0 cid i' m' dd' name0' cid' hm2 hk2 hmem hn1 hn2 hm2' hk2'
            hmem' hn1' hn2' hcc
          rcases hEntry hm2 hk2 hmem hn1 hn2 with ⟨m0, d0, hl0, hk0, hmem0⟩ | ⟨hip, hnn, hcf⟩
          · rcases hEntry hm2' hk2' hmem' hn1' hn2' with
              ⟨m0', d0', hl0', hk0', hmem0'⟩ | ⟨hip', hnn', hcf'⟩
            · exact hinv.uniq i m0 d0 name0 cid i' m0' d0' name0' cid' hl0 hk0 hmem0
                hn1 hn2 hl0' hk0' hmem0' hn1' hn2' hcc
            · obtain ⟨w, hw⟩ := hinv.live i m0 d0 name0 cid hl0 hk0 hmem0
              rw [hcc, hcf', hfresh] at hw
              cases hw
          · rcases hEntry hm2' hk2' hmem' hn1' hn2' with
              ⟨m0', d0', hl0', hk0', hmem0'⟩ | ⟨hip', hnn', hcf'⟩
            · obtain ⟨w, hw⟩ := hinv.live i' m0' d0' name0' cid' hl0' hk0' hmem0'
              rw [← hcc, hcf, hfresh] at hw
              cases hw
            · rw [hip, hip', hnn, hnn']
              exact ⟨rfl, rfl⟩
        · -- ns_root
          intro i m dd name0 cid hm2 hk2 hmem hn1 hn2
          rcases hEntry hm2 hk2 hmem hn1 hn2 with ⟨m0, d0, hl0, hk0, hmem0⟩ | ⟨_, _, hcf⟩
          · exact hinv.ns_root i m0 d0 name0 cid hl0 hk0 hmem0 hn1 hn2
          · rw [hcf]
            exact hfid_ne_root

/-- The committed tail of `Fs::rm`: once the checks have passed, the parent
entry is unbound and the (file or self-only-directory) target is freed; the
invariant survives. -/
theorem inv_rm_commit {fs : Fs} (hinv : Inv fs) {parent t : Node} {pd : Dir}
    {name : String} {tid : NodeId}
    (hparena : lookupA fs.nodes parent.id = some parent)
    (hpk : parent.kind = .dir pd)
    (hlookA : lookupA pd.nodes name = some tid)
    (hn1 : name ≠ ".") (hn2 : name ≠ "..")
    (hgetA : lookupA fs.nodes tid = some t)
    (hkinds : (∃ f, t.kind = .file f) ∨
      (∃ td, t.kind = .dir td ∧ ∀ nm cid, (nm, cid) ∈ td.nodes → nm = "." ∨ nm = "..")) :
    Inv (Fs.rm_recursive
      { fs with nodes := (updateA fs.nodes parent.id
          { parent with kind := .dir (pd.rm name).2 }) } tid) := by
  have hmem_name : (name, tid) ∈ pd.nodes := mem_of_lookupA hlookA
  have htid_ne_root : tid ≠ ROOT_ID :=
    hinv.ns_root parent.id parent pd name tid hparena hpk hmem_name hn1 hn2
  have hnd_pd : (pd.nodes.map Prod.fst).Nodup :=
    hinv.dkeys parent.id parent pd hparena hpk
  have htid_ne_pid : tid ≠ parent.id := by
    intro he
    rw [he, hparena] at hgetA
    have ht : t = parent := by
      injection hgetA with h2
      exact h2.symm
    rcases hkinds with ⟨f, hf⟩ | ⟨td, htd, hself⟩
    · rw [ht, hpk] at hf
      cases hf
    · rw [ht, hpk] at htd
      injection htd with htd
      rcases hself name tid (htd ▸ hmem_name) with h1 | h1
      · exact hn1 h1
      · exact hn2 h1
  set p1 : Node := { parent with kind := .dir (pd.rm name).2 } with hp1
  set fs1 : Fs := { fs with nodes := updateA fs.nodes parent.id p1 } with hfs1
  have ht1 : lookupA fs1.nodes tid = some t := by
    show lookupA (updateA fs.nodes parent.id p1) tid = some t
    rw [lookupA_updateA_ne _ _ htid_ne_pid]
    exact hgetA
  have hrec : fs1.rm_recursive tid = { fs1 with nodes := (removeA fs1.nodes tid).2 } :=
    rm_recursive_self_only fs1 tid t ht1 (by
      rcases hkinds with ⟨f, hf⟩ | ⟨td, htd, hself⟩
      · exact Or.inl ⟨f, hf⟩
      · exact Or.inr ⟨td, htd, hself⟩)
  rw [hrec]
  set pd1 : Dir := (pd.rm name).2 with hpd1
  have hpd1nodes : pd1.nodes = (removeA pd.nodes name).2 := rfl
  have hp1k : p1.kind = .dir pd1 := rfl
  set M : List (NodeId × Node) := updateA fs.nodes parent.id p1 with hM
  set L' : List (NodeId × Node) := (removeA M tid).2 with hL'
  have hndM : (M.map Prod.fst).Nodup := by
    rw [hM, map_fst_updateA]
    exact hinv.akeys
  have hfs1nodes : (removeA fs1.nodes tid).2 = L' := rfl
  have hlk : ∀ i, lookupA L' i =
      if i = tid then Option.none
      else if i = parent.id then some p1 else lookupA fs.nodes i := by
    intro i
    by_cases hit : i = tid
    · rw [if_pos hit, hit, hL']
      exact lookupA_removeA_self hndM
    · rw [if_neg hit, hL', lookupA_removeA_ne M hit, hM]
      exact lookupA_updateA_eq p1 hparena i
  have hNodeAt : ∀ {i : NodeId} {m : Node}, lookupA L' i = some m →
      i ≠ tid ∧ ((i = parent.id ∧ m = p1) ∨
        (i ≠ parent.id ∧ lookupA fs.nodes i = some m)) := by
    intro i m hm2
    rw [hlk i] at hm2
    by_cases hit : i = tid
    · rw [if_pos hit] at hm2
      cases hm2
    · rw [if_neg hit] at hm2
      refine ⟨hit, ?_⟩
      by_cases hip : i = parent.id
      · rw [if_pos hip] at hm2
        injection hm2 with hm2
        exact Or.inl ⟨hip, hm2.symm⟩
      · rw [if_neg hip] at hm2
        exact Or.inr ⟨hip, hm2⟩
  have hDomMono : ∀ {i : NodeId}, i ≠ tid → (∃ w, lookupA fs.nodes i = some w) →
      ∃ w, lookupA L' i = some w := by
    intro i hit hi
    obtain ⟨w, hw⟩ := hi
    rw [hlk i, if_neg hit]
    by_cases hip : i = parent.id
    · exact ⟨p1, by rw [if_pos hip]⟩
    · rw [if_neg hip]
      exact ⟨w, hw⟩
  have hnd_pd1 : (pd1.nodes.map Prod.fst).Nodup := by
    rw [hpd1nodes]
    exact nodup_keys_removeA name hnd_pd
  have hpd1name : lookupA pd1.nodes name = Option.none := by
    rw [hpd1nodes]
    exact lookupA_removeA_self hnd_pd
  have hmem_pd1 : ∀ {x : String × NodeId}, x ∈ pd1.nodes → x ∈ pd.nodes := by
    intro x hx
    rw [hpd1nodes] at hx
    exact mem_of_mem_removeA hx
  have hmem_pd1' : ∀ {x : String × NodeId}, x ∈ pd.nodes → x.1 ≠ name →
      x ∈ pd1.nodes := by
    intro x hx hne
    rw [hpd1nodes]
    exact mem_removeA_of_ne hx hne
  have hname_not : ∀ c, (name, c) ∉ pd1.nodes := by
    intro c hc
    have := lookupA_eq_some_of_mem_nodup hc hnd_pd1
    rw [hpd1name] at this
    cases this
  have hdot_unique : ∀ i n di c, lookupA fs.nodes i = some n → n.kind = .dir di →
      (".", c) ∈ di.nodes → c = i := by
    intro i n di c hl hk2 hc
    have h1 := lookupA_eq_some_of_mem_nodup hc (hinv.dkeys i n di hl hk2)
    have h2 := lookupA_eq_some_of_mem_nodup (hinv.dot i n di hl hk2)
      (hinv.dkeys i n di hl hk2)
    rw [h1] at h2
    injection h2 with h2
  have hq_ne_tid : ∀ i n di q, lookupA fs.nodes i = some n → n.kind = .dir di →
      ("..", q) ∈ di.nodes → q ≠ tid := by
    intro i n di q hl hk2 hq he
    obtain ⟨q0, qn, qd, hqe0, hql0, hqk0, hcond0⟩ := hinv.dotdot i n di hl hk2
    have hq0 : q = q0 := by
      have h1 := lookupA_eq_some_of_mem_nodup hq (hinv.dkeys i n di hl hk2)
      have h2 := lookupA_eq_some_of_mem_nodup hqe0 (hinv.dkeys i n di hl hk2)
      rw [h1] at h2
      injection h2 with h2
    rw [← hq0, he] at hql0
    have hqt : qn = t := by
      rw [hgetA] at hql0
      injection hql0 with h2
      exact h2.symm
    rcases hcond0 with ⟨_, hq0r⟩ | ⟨_, nm3, h31, h32, hmm3⟩
    · exact htid_ne_root (by rw [← he, hq0]; exact hq0r)
    · rcases hkinds with ⟨f, hf⟩ | ⟨td, htd, hself⟩
      · rw [hqt, hf] at hqk0
        cases hqk0
      · rw [hqt, htd] at hqk0
        injection hqk0 with hqk0
        rcases hself nm3 i (hqk0 ▸ hmm3) with h1 | h1
        · exact h31 h1
        · exact h32 h1
  have hnonself_tid : ∀ i n di nm cid, lookupA fs.nodes i = some n →
      n.kind = .dir di → (nm, cid) ∈ di.nodes → nm ≠ "." → nm ≠ ".." →
      cid = tid → i = parent.id ∧ nm = name := by
    intro i n di nm cid hl hk2 hmem hd1 hd2 hcc
    exact hinv.uniq i n di nm cid parent.id parent pd name tid hl hk2 hmem hd1 hd2
      hparena hpk hmem_name hn1 hn2 hcc
  have hEntryR : ∀ {i : NodeId} {m : Node} {dd : Dir} {nm : String} {cid : NodeId},
      lookupA L' i = some m → m.kind = .dir dd → (nm, cid) ∈ dd.nodes →
      ∃ m0 d0, lookupA fs.nodes i = some m0 ∧ m0.kind = .dir d0 ∧
        (nm, cid) ∈ d0.nodes := by
    intro i m dd nm cid hm2 hk2 hmem
    rcases hNodeAt hm2 with ⟨hit, ⟨hip, hmm⟩ | ⟨hip, hold⟩⟩
    · rw [hmm, hp1k] at hk2
      injection hk2 with hk2
      rw [← hk2] at hmem
      rw [hip]
      exact ⟨parent, pd, hparena, hpk, hmem_pd1 hmem⟩
    · exact ⟨m, dd, hold, hk2, hmem⟩
  refine ⟨?_, ?_, ?_, ?_, ?_, ?_, ?_, ?_, ?_, ?_⟩
  · -- root_dir
    obtain ⟨rn, rd, hr, hrk⟩ := hinv.root_dir
    by_cases hrp : ROOT_ID = parent.id
    · refine ⟨p1, pd1, ?_, hp1k⟩
      rw [show lookupA ({ fs1 with nodes := (removeA fs1.nodes tid).2 } : Fs).nodes
          ROOT_ID = lookupA L' ROOT_ID from rfl,
        hlk ROOT_ID, if_neg (fun he => htid_ne_root he.symm), if_pos hrp]
    · refine ⟨rn, rd, ?_, hrk⟩
      rw [show lookupA ({ fs1 with nodes := (removeA fs1.nodes tid).2 } : Fs).nodes
          ROOT_ID = lookupA L' ROOT_ID from rfl,
        hlk ROOT_ID, if_neg (fun he => htid_ne_root he.symm), if_neg hrp]
      exact hr
  · -- idc
    intro i m hm2
    rcases hNodeAt hm2 with ⟨hit, ⟨hip, hmm⟩ | ⟨hip, hold⟩⟩
    · rw [hmm, hip]
    · exact hinv.idc i m hold
  · -- bound
    intro i m hm2
    show i < fs.node_counter
    rcases hNodeAt hm2 with ⟨hit, ⟨hip, hmm⟩ | ⟨hip, hold⟩⟩
    · rw [hip]
      exact hinv.bound parent.id parent hparena
    · exact hinv.bound i m hold
  · -- akeys
    show (L'.map Prod.fst).Nodup
    exact nodup_keys_removeA tid hndM
  · -- dkeys
    intro i m dd hm2 hk2
    rcases hNodeAt hm2 with ⟨hit, ⟨hip, hmm⟩ | ⟨hip, hold⟩⟩
    · rw [hmm, hp1k] at hk2
      injection hk2 with hk2
      rw [← hk2]
      exact hnd_pd1
    · exact hinv.dkeys i m dd hold hk2
  · -- dot
    intro i m dd hm2 hk2
    rcases hNodeAt hm2 with ⟨hit, ⟨hip, hmm⟩ | ⟨hip, hold⟩⟩
    · rw [hmm, hp1k] at hk2
      injection hk2 with hk2
      rw [← hk2, hip]
      exact hmem_pd1' (hinv.dot parent.id parent pd hparena hpk)
        (fun he => hn1 he.symm)
    · exact hinv.dot i m dd hold hk2
  · -- dotdot
    intro i m dd hm2 hk2
    rcases hNodeAt hm2 with ⟨hit, ⟨hip, hmm⟩ | ⟨hip, hold⟩⟩
    · rw [hmm, hp1k] at hk2
      injection hk2 with hk2
      rw [← hk2, hip]
      obtain ⟨q, qn, qd, hqe, hql, hqk, hcond⟩ :=
        hinv.dotdot parent.id parent pd hparena hpk
      have hqnt : q ≠ tid := hq_ne_tid parent.id parent pd q hparena hpk hqe
      by_cases hqp : q = parent.id
      · have hqn : qn = parent := by
          rw [hqp, hparena] at hql
          injection hql with h2
          exact h2.symm
        have hqd : qd = pd := by
          rw [hqn, hpk] at hqk
          injection hqk with h2
          exact h2.symm
        refine ⟨q, p1, pd1, hmem_pd1' hqe (fun he => hn2 he.symm), ?_, hp1k, ?_⟩
        · rw [hlk q, if_neg hqnt, if_pos hqp]
        · rcases hcond with hcl | ⟨hne, nm3, h31, h32, hmm3⟩
          · exact Or.inl hcl
          · have hnm3 : nm3 ≠ name := by
              intro he
              have := lookupA_eq_some_of_mem_nodup (he ▸ (hqd ▸ hmm3)) hnd_pd
              rw [hlookA] at this
              injection this with h2
              exact htid_ne_pid h2
            exact Or.inr ⟨hne, nm3, h31, h32, hmem_pd1' (hqd ▸ hmm3) hnm3⟩
      · refine ⟨q, qn, qd, hmem_pd1' hqe (fun he => hn2 he.symm), ?_, hqk, hcond⟩
        rw [hlk q, if_neg hqnt, if_neg hqp]
        exact hql
    · obtain ⟨q, qn, qd, hqe, hql, hqk, hcond⟩ := hinv.dotdot i m dd hold hk2
      have hqnt : q ≠ tid := hq_ne_tid i m dd q hold hk2 hqe
      by_cases hqp : q = parent.id
      · have hqn : qn = parent := by
          rw [hqp, hparena] at hql
          injection hql with h2
          exact h2.symm
        have hqd : qd = pd := by
          rw [hqn, hpk] at hqk
          injection hqk with h2
          exact h2.symm
        refine ⟨q, p1, pd1, hqe, ?_, hp1k, ?_⟩
        · rw [hlk q, if_neg hqnt, if_pos hqp]
        · rcases hcond with hcl | ⟨hne, nm3, h31, h32, hmm3⟩
          · exact Or.inl hcl
          · have hnm3 : nm3 ≠ name := by
              intro he
              have := lookupA_eq_some_of_mem_nodup (he ▸ (hqd ▸ hmm3)) hnd_pd
              rw [hlookA] at this
              injection this with h2
              exact hit h2.symm
            exact Or.inr ⟨hne, nm3, h31, h32, hmem_pd1' (hqd ▸ hmm3) hnm3⟩
      · refine ⟨q, qn, qd, hqe, ?_, hqk, hcond⟩
        rw [hlk q, if_neg hqnt, if_neg hqp]
        exact hql
  · -- live
    intro i m dd nm cid hm2 hk2 hmem
    rcases hNodeAt hm2 with ⟨hit, ⟨hip, hmm⟩ | ⟨hip, hold⟩⟩
    · rw [hmm, hp1k] at hk2
      injection hk2 with hk2
      rw [← hk2] at hmem
      have hmem0 : (nm, cid) ∈ pd.nodes := hmem_pd1 hmem
      have hcnt : cid ≠ tid := by
        by_cases hd1 : nm = "."
        · have : cid = parent.id :=
            hdot_unique parent.id parent pd cid hparena hpk (hd1 ▸ hmem0)
          rw [this]
          exact fun he => htid_ne_pid he.symm
        by_cases hd2 : nm = ".."
        · exact hq_ne_tid parent.id parent pd cid hparena hpk (hd2 ▸ hmem0)
        · intro he
          have := (hnonself_tid parent.id parent pd nm cid hparena hpk hmem0
            hd1 hd2 he).2
          exact hname_not cid (this ▸ hmem)
      exact hDomMono hcnt (hinv.live parent.id parent pd nm cid hparena hpk hmem0)
    · have hcnt : cid ≠ tid := by
        by_cases hd1 : nm = "."
        · have : cid = i := hdot_unique i m dd cid hold hk2 (hd1 ▸ hmem)
          rw [this]
          exact hit
        by_cases hd2 : nm = ".."
        · exact hq_ne_tid i m dd cid hold hk2 (hd2 ▸ hmem)
        · intro he
          have := (hnonself_tid i m dd nm cid hold hk2 hmem hd1 hd2 he).1
          exact hip this
      exact hDomMono hcnt (hinv.live i m dd nm cid hold hk2 hmem)
  · -- uniq
    intro i m dd nm cid i' m' dd' nm' cid' hm2 hk2 hmem hd1 hd2 hm2' hk2' hmem'
      hd1' hd2' hcc
    obtain ⟨m0, d0, hl0, hk0, hmem0⟩ := hEntryR hm2 hk2 hmem
    obtain ⟨m0', d0', hl0', hk0', hmem0'⟩ := hEntryR hm2' hk2' hmem'
    exact hinv.uniq i m0 d0 nm cid i' m0' d0' nm' cid' hl0 hk0 hmem0 hd1 hd2
      hl0' hk0' hmem0' hd1' hd2' hcc
  · -- ns_root
    intro i m dd nm cid hm2 hk2 hmem hd1 hd2
    obtain ⟨m0, d0, hl0, hk0, hmem0⟩ := hEntryR hm2 hk2 hmem
    exact hinv.ns_root i m0 d0 nm cid hl0 hk0 hmem0 hd1 hd2

/-- `Fs::rm` preserves the invariant. -/
theorem inv_rm {fs fs' : Fs} (hinv : Inv fs) {uid : UserId} {path : Path}
    (h : fs.rm uid path = .ok fs') : Inv fs' := by
  unfold Fs.rm at h
  cases hname : filename path with
  | error e => rw [hname] at h; cases h
  | ok name =>
  rw [hname] at h
  dsimp only at h
  cases hpar : fs.resolve_parent_of uid path with
  | error e => rw [hpar] at h; cases h
  | ok parent =>
  rw [hpar] at h
  dsimp only at h
  cases hpd : parent.as_dir with
  | error e => rw [hpd] at h; cases h
  | ok pd =>
  rw [hpd] at h
  dsimp only at h
  cases hlook : pd.lookup name with
  | error e => rw [hlook] at h; cases h
  | ok tid =>
  rw [hlook] at h
  dsimp only at h
  cases hget : fs.get_node uid tid with
  | error e => rw [hget] at h; cases h
  | ok t =>
  rw [hget] at h
  dsimp only at h
  have hparena : lookupA fs.nodes parent.id = some parent :=
    (resolve_path_spec hinv uid (parentPath path)).2 parent hpar
  have hpk : parent.kind = .dir pd := as_dir_ok_inv hpd
  have hlookA : lookupA pd.nodes name = some tid := dir_lookup_ok_inv hlook
  have hgetA : lookupA fs.nodes tid = some t := ((get_node_ok_iff fs uid tid t).mp hget).1
  obtain ⟨hn1, hn2⟩ := filename_ok_nonself hname
  have hcommit : ∀ (hkinds : (∃ f, t.kind = .file f) ∨
      (∃ td, t.kind = .dir td ∧ ∀ nm cid, (nm, cid) ∈ td.nodes → nm = "." ∨ nm = "..")),
      (match fs.get_node_mut uid parent.id with
        | .error e => .error e
        | .ok parent2 =>
          match parent2.as_dir with
          | .error e => .error e
          | .ok pd2 =>
            match (pd2.rm name).1 with
            | Option.none => Except.error (Err.panic "should exists")
            | some old =>
              let fs1 : Fs :=
                { fs with
                  nodes := updateA fs.nodes parent.id
                    { parent2 with kind := .dir (pd2.rm name).2 } }
              .ok (fs1.rm_recursive old)) = Except.ok fs' → Inv fs' := by
    intro hkinds h2
    cases hmut : fs.get_node_mut uid parent.id with
    | error e => rw [hmut] at h2; cases h2
    | ok parent2 =>
    rw [hmut] at h2
    dsimp only at h2
    have hp2 : parent2 = parent := by
      have hx := ((get_node_mut_ok_iff fs uid parent.id parent2).mp hmut).1
      rw [hparena] at hx
      injection hx with h3
      exact h3.symm
    rw [hp2, hpd] at h2
    dsimp only at h2
    have hrm1 : (pd.rm name).1 = some tid := by
      show (removeA pd.nodes name).1 = some tid
      exact removeA_fst_of_lookupA hlookA
    rw [hrm1] at h2
    dsimp only at h2
    injection h2 with h2
    rw [← h2]
    exact inv_rm_commit hinv hparena hpk hlookA hn1 hn2 hgetA hkinds
  cases hk : t.kind with
  | file f =>
    rw [hk] at h
    dsimp only at h
    rw [if_neg (fun hc => Bool.false_ne_true hc)] at h
    exact hcommit (Or.inl ⟨f, hk⟩) h
  | dir td =>
    rw [hk] at h
    dsimp only at h
    cases hemp : td.is_empty with
    | false =>
      rw [hemp] at h
      rw [show (!false) = true from rfl] at h
      rw [if_pos rfl] at h
      cases h
    | true =>
      rw [hemp] at h
      rw [show (!true) = false from rfl] at h
      rw [if_neg (fun hc => Bool.false_ne_true hc)] at h
      obtain ⟨q, qn, qd, hqe, _, _, _⟩ := hinv.dotdot tid t td hgetA hk
      have hself : ∀ nm cid, (nm, cid) ∈ td.nodes → nm = "." ∨ nm = ".." := by
        intro nm cid hmem
        exact (dir_is_empty_iff td tid q (hinv.dot tid t td hgetA hk) hqe
          (hinv.dkeys tid t td hgetA hk)).mp hemp (nm, cid) hmem
      exact hcommit (Or.inr ⟨td, hk, hself⟩) h

/-- `Fs::new_file` preserves the invariant (it commits through `Fs::create`). -/
theorem inv_new_file {fs fs' : Fs} (hinv : Inv fs) {uid : UserId} {p : Path}
    (h : fs.new_file uid p = .ok fs') : Inv fs' := by
  unfold Fs.new_file at h
  cases hp : fs.resolve_parent_of_mut uid p with
  | error e => rw [hp] at h; cases h
  | ok parent =>
  rw [hp] at h
  dsimp only at h
  cases hn : filename p with
  | error e => rw [hn] at h; cases h
  | ok name =>
  rw [hn] at h
  dsimp only at h
  cases hc : fs.create uid parent.id name .file with
  | error e => rw [hc] at h; cases h
  | ok r =>
  obtain ⟨rid, fs2⟩ := r
  rw [hc] at h
  dsimp only at h
  injection h with h
  rw [← h]
  exact inv_create hinv hc

/-- `Fs::new_dir` preserves the invariant. -/
theorem inv_new_dir {fs fs' : Fs} (hinv : Inv fs) {uid : UserId} {p : Path}
    (h : fs.new_dir uid p = .ok fs') : Inv fs' := by
  unfold Fs.new_dir at h
  cases hp : fs.resolve_parent_of_mut uid p with
  | error e => rw [hp] at h; cases h
  | ok parent =>
  rw [hp] at h
  dsimp only at h
  cases hn : filename p with
  | error e => rw [hn] at h; cases h
  | ok name =>
  rw [hn] at h
  dsimp only at h
  cases hc : fs.create uid parent.id name .dir with
  | error e => rw [hc] at h; cases h
  | ok r =>
  obtain ⟨rid, fs2⟩ := r
  rw [hc] at h
  dsimp only at h
  injection h with h
  rw [← h]
  exact inv_create hinv hc

/-- Every successfully committed operation preserves the invariant. -/
theorem inv_run {fs fs' : Fs} (hinv : Inv fs) (c : FsCmd)
    (h : c.run fs = .ok fs') : Inv fs' := by
  cases c with
  | fread uid p =>
    unfold FsCmd.run at h
    dsimp only at h
    cases hr : fs.read uid p with
    | error e => rw [hr] at h; injection h
    | ok s =>
      rw [hr] at h
      injection h with h
      rw [← h]
      exact hinv
  | fwrite uid p data => exact inv_write hinv h
  | frm uid p => exact inv_rm hinv h
  | fnew_file uid p => exact inv_new_file hinv h
  | fnew_dir uid p => exact inv_new_dir hinv h
  | fexec uid p =>
    unfold FsCmd.run at h
    dsimp only at h
    cases hr : fs.exec uid p with
    | error e => rw [hr] at h; injection h
    | ok s =>
      rw [hr] at h
      injection h with h
      rw [← h]
      exact hinv
  | fset_perms uid p perms => exact inv_set_perms hinv h
  | fls uid p =>
    unfold FsCmd.run at h
    dsimp only at h
    cases hr : fs.ls uid p with
    | error e => rw [hr] at h; injection h
    | ok s =>
      rw [hr] at h
      injection h with h
      rw [← h]
      exact hinv

/-- One transition step preserves the invariant (failures keep the store). -/
theorem inv_step {fs : Fs} (hinv : Inv fs) (c : FsCmd) : Inv (c.step fs) := by
  unfold FsCmd.step
  cases hr : c.run fs with
  | error e => exact hinv
  | ok fs2 => exact inv_run hinv c hr

theorem inv_foldl (cs : List FsCmd) :
    ∀ fs, Inv fs → Inv (cs.foldl (fun fs c => c.step fs) fs) := by
  induction cs with
  | nil => exact fun fs h => h
  | cons c rest ih => exact fun fs h => ih _ (inv_step h c)

/-- The store reached by any operation sequence from the fresh store
satisfies the invariant. -/
theorem inv_runAll (cs : List FsCmd) : Inv (runAll cs) :=
  inv_foldl cs Fs.new inv_new

/-- C9: after every sequence of operations on a freshly created node store,
every NodeId bound in any directory under a name other than `.`/`..` denotes
a live node present in the arena, and no further operation run on that store
can reach an internal-panic site (in particular the arena lookup's
"bug: node should exist" expect and `rm`'s "should exists" expect are
unreachable). -/
theorem dangling_free_no_panic (cs : List FsCmd) (c : FsCmd) :
    liveEntries (runAll cs) ∧ NoPanic (c.run (runAll cs)) :=
  ⟨liveEntries_of_inv (inv_runAll cs), run_no_panic (inv_runAll cs) c⟩

end Filesys
